import Mathlib

/-!
# Verification of the hwangsae recording engine

The repository ships only the recorder's test harness (`tests/test-recorder.c`)
and a relay facade header; the recording engine itself is specified in prose.
The definitions below are therefore a shallow embedding of the recording
engine modelled from the specification (§3–§7), with the event/callback
discipline exercised by the test harness.  Machine integers are modelled as
`Nat` (timestamps and byte counts never overflow in the scenarios considered),
file paths as `String`, and the cooperative event loop of §5 as a sequence of
serialized inputs consumed by a step function.
-/

/-- Container formats supported by the recorder (spec §6: `container ∈ {MP4, MPEG-TS}`,
test harness: `HWANGSAE_CONTAINER_MP4` / `HWANGSAE_CONTAINER_TS`). -/
inductive ContainerFormat
  | mp4
  | ts
deriving DecidableEq, Repr

/-- Session states (spec §3): `state ∈ {Idle, WaitingForStream, Recording, Stopped}`,
plus `Stopping`, the transient phase between the asynchronous `stopRecording()`
request and the completion of the stop (spec §4.1: stop "returns control to the
caller asynchronously"; the test `split_run_test` tolerates additional
file-created events between the stop request and stream-disconnected). -/
inductive SessionState
  | Idle
  | WaitingForStream
  | Recording
  | Stopping
  | Stopped
deriving DecidableEq, Repr

/-- Modelled from the spec (§3 DataUnit): `payload` is opaque encoded bytes, of
which only the byte count matters to the engine; `presentationTimestamp`;
`isKeyBoundary` marks a safe cut point. -/
structure DataUnit where
  payloadSize : Nat
  presentationTimestamp : Nat
  isKeyBoundary : Bool
deriving DecidableEq, Repr

/-- Modelled from the spec (§3 SegmentHandle): `filePath`; `openedAt` (stream-time
at which the file was opened); `bytesWritten`; `isOpen`.  `unitsWritten` and
`lastTimestamp` record how many data units were appended and the presentation
timestamp of the last one; `format` is the container format the segment writer
muxes into (fixed when the file is opened). -/
structure SegmentHandle where
  filePath : String
  openedAt : Nat
  bytesWritten : Nat
  unitsWritten : Nat
  lastTimestamp : Nat
  isOpen : Bool
  format : ContainerFormat
deriving DecidableEq, Repr

/-- Modelled from the spec (§3 GapInterval): one connection-loss interval. -/
structure GapInterval where
  startTimestamp : Nat
  endTimestamp : Nat
deriving DecidableEq, Repr

/-- Duration of a gap interval. -/
def GapInterval.duration (g : GapInterval) : Nat :=
  g.endTimestamp - g.startTimestamp

/-- Modelled from the spec (§4.4 GapTracker): bookkeeping of connection-loss
intervals within the current output file.  `currentFileGaps` is the ordered
sequence of completed gaps; `pendingStart` is the timestamp of a disconnect
whose reconnect has not yet happened. -/
structure GapTracker where
  currentFileGaps : List GapInterval
  pendingStart : Option Nat
deriving DecidableEq, Repr

/-- The empty gap tracker (`reset()` on rotation / new file, spec §4.4). -/
def GapTracker.empty : GapTracker := ⟨[], none⟩

/-- `recordDisconnect(ts)` (spec §4.4). -/
def GapTracker.recordDisconnect (g : GapTracker) (ts : Nat) : GapTracker :=
  { g with pendingStart := some ts }

/-- `recordReconnect(ts)` (spec §4.4): closes the pending gap, if any. -/
def GapTracker.recordReconnect (g : GapTracker) (ts : Nat) : GapTracker :=
  match g.pendingStart with
  | some s => ⟨g.currentFileGaps ++ [⟨s, ts⟩], none⟩
  | none => g

/-- Modelled from the spec (§3 RecordingSession): configuration, state, the
(at most one) owned segment handle, the gap tracker, plus the bookkeeping the
proofs observe: `closedSegments` is the sequence of finalized output files in
completion order, `streamAttached` records whether a stream source ever
connected during this session, and `nextSequence` numbers output files. -/
structure RecordingSession where
  state : SessionState
  containerFormat : ContainerFormat
  maxSegmentDuration : Option Nat
  maxSegmentBytes : Option Nat
  outputDirectory : String
  currentSegment : Option SegmentHandle
  closedSegments : List SegmentHandle
  gaps : GapTracker
  streamAttached : Bool
  nextSequence : Nat
deriving DecidableEq, Repr

/-- Lifecycle events emitted to external listeners (spec §4.1, §6). -/
inductive Event
  | streamConnected
  | streamDisconnected
  | fileCreated (path : String)
  | fileCompleted (path : String)
deriving DecidableEq, Repr

/-- Error taxonomy (spec §7). -/
inductive RecorderError
  | AlreadyRecording
  | IoError
deriving DecidableEq, Repr

/-- Inputs serialized onto the session's single event loop (spec §5): control
calls and stream-source callbacks.  `eos` is the writer's flush-completion that
ends an asynchronous stop; its flag injects a flush failure (spec §4.3: flush
errors are surfaced but the handle is released regardless). -/
inductive SourceInput
  | startRecording (uri : String)
  | stopRecording
  | sourceConnected (ts : Nat)
  | sourceDisconnected (ts : Nat)
  | dataUnit (u : DataUnit)
  | eos (flushError : Bool)
deriving DecidableEq, Repr

/-- File extension for a container format (test harness `get_file_duration`
branches on the `.mp4` / `.ts` suffix). -/
def extensionFor : ContainerFormat → String
  | .mp4 => ".mp4"
  | .ts => ".ts"

/-- Container MIME type produced by the muxer for a format
(test harness: `video/quicktime` for MP4, `video/mpegts` for MPEG-TS). -/
def mimeTypeFor : ContainerFormat → String
  | .mp4 => "video/quicktime"
  | .ts => "video/mpegts"

/-- The container type the test harness expects for a file extension
(`get_file_duration` in `tests/test-recorder.c`). -/
def mimeForExtension (e : String) : Option String :=
  if e = ".mp4" then some "video/quicktime"
  else if e = ".ts" then some "video/mpegts"
  else none

/-- Modelled from the spec (§4.3, §6): sequence-based file naming inside the
recording directory, carrying the configured container's extension. -/
def makeFilePath (dir : String) (seq : Nat) (fmt : ContainerFormat) : String :=
  (dir ++ "/hwangsae-recording-" ++ toString seq) ++ extensionFor fmt

/-- Modelled from the spec (§4.2 RotationPolicy): `shouldRotate(segment, now)`.
Either trigger suffices: elapsed stream time since `segment.openedAt` has
reached `maxSegmentDuration`, or `segment.bytesWritten` has reached
`maxSegmentBytes`.  If neither limit is configured, never rotates. -/
def shouldRotate (maxDur maxBytes : Option Nat) (seg : SegmentHandle) (now : Nat) : Bool :=
  (match maxDur with
   | some d => decide (d ≤ now - seg.openedAt)
   | none => false) ||
  (match maxBytes with
   | some b => decide (b ≤ seg.bytesWritten)
   | none => false)

/-- A freshly opened segment handle (spec §4.3 `openNewSegment`): no data yet. -/
def freshSegment (path : String) (ts : Nat) (fmt : ContainerFormat) : SegmentHandle :=
  ⟨path, ts, 0, 0, ts, true, fmt⟩

/-- `appendUnit` on the handle (spec §4.3): accumulate bytes and advance the
last presentation timestamp. -/
def appendOne (seg : SegmentHandle) (sz ts : Nat) : SegmentHandle :=
  { seg with
      bytesWritten := seg.bytesWritten + sz
      unitsWritten := seg.unitsWritten + 1
      lastTimestamp := ts }

/-- Media duration covered by a segment: from open to the last appended unit. -/
def segDuration (seg : SegmentHandle) : Nat :=
  seg.lastTimestamp - seg.openedAt

/-- Modelled from the spec (§4.3 SegmentWriter `openNewSegment` + §4.4 reset on new
file): opens the next output file, resets the gap tracker, emits file-created. -/
def openNewSegment (s : RecordingSession) (ts : Nat) : RecordingSession × List Event :=
  let path := makeFilePath s.outputDirectory s.nextSequence s.containerFormat
  ({ s with
      currentSegment := some (freshSegment path ts s.containerFormat)
      gaps := GapTracker.empty
      nextSequence := s.nextSequence + 1 },
   [Event.fileCreated path])

/-- Modelled from the spec (§4.3 SegmentWriter `closeSegment`): always succeeds
logically — a flush error is surfaced but the handle is released regardless, to
guarantee the at-most-one-open invariant.  Emits file-completed on close. -/
def closeSegment (s : RecordingSession) (flushError : Bool) :
    RecordingSession × List Event × Option RecorderError :=
  match s.currentSegment with
  | some seg =>
      ({ s with
          currentSegment := none
          closedSegments := s.closedSegments ++ [{ seg with isOpen := false }] },
       [Event.fileCompleted seg.filePath],
       if flushError then some RecorderError.IoError else none)
  | none => (s, [], none)

/-- Result of feeding one input to the session. -/
structure StepResult where
  session : RecordingSession
  events : List Event
  error : Option RecorderError
deriving DecidableEq, Repr

/-- Modelled from the spec (§4.1 state machine, §4.2 rotation, §4.3 writer):
one transition of the recording session on one serialized input.

* `startRecording` — Idle → WaitingForStream; fails synchronously with
  `AlreadyRecording` in any other state, leaving the session unchanged.
* `stopRecording` — Recording / WaitingForStream → Stopping (the stop is
  asynchronous; the in-flight data drains until `eos`); no-op when already
  Stopping or Stopped; from Idle it goes directly to Stopped with no events.
* `sourceConnected` — first connect (no stream attached yet): emits
  stream-connected, opens the first segment, emits file-created; a reconnect
  records the gap end and continues the same segment.
* `sourceDisconnected` — records the gap start; the segment stays open and no
  file-completed is emitted (spec §4.1).
* `dataUnit` — consults the rotation policy; rotation is executed at a key
  boundary unit (the grace-period fallback of §4.2 is not observable from the
  repository and all streams considered here consist of key-boundary units),
  finalizing the current file and opening the next one; otherwise appends.
* `eos` — completes an asynchronous stop: finalizes the open segment if any
  (file-completed), then emits stream-disconnected if a stream was attached. -/
def step (s : RecordingSession) (i : SourceInput) : StepResult :=
  match i with
  | .startRecording _ =>
      if s.state = SessionState.Idle then
        ⟨{ s with state := SessionState.WaitingForStream }, [], none⟩
      else
        ⟨s, [], some RecorderError.AlreadyRecording⟩
  | .stopRecording =>
      match s.state with
      | .Idle => ⟨{ s with state := SessionState.Stopped }, [], none⟩
      | .WaitingForStream => ⟨{ s with state := SessionState.Stopping }, [], none⟩
      | .Recording => ⟨{ s with state := SessionState.Stopping }, [], none⟩
      | .Stopping => ⟨s, [], none⟩
      | .Stopped => ⟨s, [], none⟩
  | .sourceConnected ts =>
      match s.state with
      | .WaitingForStream =>
          if s.streamAttached then
            ⟨{ s with state := SessionState.Recording, gaps := s.gaps.recordReconnect ts },
             [], none⟩
          else
            let r := openNewSegment
              { s with state := SessionState.Recording, streamAttached := true } ts
            ⟨r.1, Event.streamConnected :: r.2, none⟩
      | _ => ⟨s, [], none⟩
  | .sourceDisconnected ts =>
      match s.state with
      | .Recording =>
          ⟨{ s with state := SessionState.WaitingForStream,
                    gaps := s.gaps.recordDisconnect ts }, [], none⟩
      | _ => ⟨s, [], none⟩
  | .dataUnit u =>
      if (s.state = SessionState.Recording ∨
          (s.state = SessionState.Stopping ∧ s.streamAttached = true)) then
        match s.currentSegment with
        | none =>
            let r := openNewSegment s u.presentationTimestamp
            ⟨{ r.1 with currentSegment :=
                 r.1.currentSegment.map (appendOne · u.payloadSize u.presentationTimestamp) },
             r.2, none⟩
        | some seg =>
            if shouldRotate s.maxSegmentDuration s.maxSegmentBytes seg
                 u.presentationTimestamp && u.isKeyBoundary then
              let c := closeSegment s false
              let o := openNewSegment c.1 u.presentationTimestamp
              ⟨{ o.1 with currentSegment :=
                   o.1.currentSegment.map (appendOne · u.payloadSize u.presentationTimestamp) },
               c.2.1 ++ o.2, none⟩
            else
              ⟨{ s with currentSegment := some (appendOne seg u.payloadSize u.presentationTimestamp) },
               [], none⟩
      else ⟨s, [], none⟩
  | .eos flushError =>
      match s.state with
      | .Stopping =>
          let c := closeSegment s flushError
          ⟨{ c.1 with state := SessionState.Stopped },
           c.2.1 ++ (if s.streamAttached then [Event.streamDisconnected] else []),
           c.2.2⟩
      | _ => ⟨s, [], none⟩

/-- A session as constructed by `hwangsae_recorder_new` plus the configuration
applied before start (spec §4.1 setters, applied atomically at session start). -/
def initialSession (fmt : ContainerFormat) (dir : String)
    (maxDur maxBytes : Option Nat) : RecordingSession :=
  { state := SessionState.Idle
    containerFormat := fmt
    maxSegmentDuration := maxDur
    maxSegmentBytes := maxBytes
    outputDirectory := dir
    currentSegment := none
    closedSegments := []
    gaps := GapTracker.empty
    streamAttached := false
    nextSequence := 0 }

/-- The session reached after consuming a list of serialized inputs. -/
def execS (s : RecordingSession) : List SourceInput → RecordingSession
  | [] => s
  | i :: is => execS (step s i).session is

/-- The concatenated event trace emitted while consuming a list of inputs. -/
def traceE (s : RecordingSession) : List SourceInput → List Event
  | [] => []
  | i :: is => (step s i).events ++ traceE (step s i).session is

/-! ## The event-ordering automaton

Spec §6 states the ordering contract of the event channel: stream-connected
always precedes the first file-created of a session; file-created always
precedes its matching file-completed and they strictly alternate;
stream-disconnected is emitted once, on stop, after the final file-completed.
The following automaton accepts exactly the traces obeying that discipline;
its state records whether the stream has connected, whether a file is
currently open (created but not yet completed), and whether the final
stream-disconnected has been emitted. -/

structure TraceState where
  connected : Bool
  fileOpen : Bool
  done : Bool
deriving DecidableEq, Repr

/-- One transition of the ordering automaton; `none` means the event is not
allowed by the §6 contract at this point of the trace. -/
def traceStep (t : TraceState) (e : Event) : Option TraceState :=
  if t.done then none
  else match e with
    | .streamConnected =>
        if t.connected || t.fileOpen then none else some ⟨true, false, false⟩
    | .fileCreated _ =>
        if t.connected && !t.fileOpen then some ⟨true, true, false⟩ else none
    | .fileCompleted _ =>
        if t.connected && t.fileOpen then some ⟨true, false, false⟩ else none
    | .streamDisconnected =>
        if t.connected && !t.fileOpen then some ⟨true, false, true⟩ else none

/-- Run of the ordering automaton over a trace; `none` is absorbing. -/
def traceRun (t : Option TraceState) : List Event → Option TraceState
  | [] => t
  | e :: r => traceRun (t.bind (fun x => traceStep x e)) r

/-- The automaton state a session's emitted-so-far trace should have reached. -/
def traceStateOf (s : RecordingSession) : TraceState :=
  ⟨s.streamAttached, s.currentSegment.isSome,
   decide (s.state = SessionState.Stopped) && s.streamAttached⟩

/-- The automaton's start state: nothing connected, no file open. -/
def traceStart : TraceState := ⟨false, false, false⟩

/-- Number of file-created events in a trace. -/
def countCreated (evs : List Event) : Nat :=
  evs.countP (fun e => match e with | .fileCreated _ => true | _ => false)

/-- Number of file-completed events in a trace. -/
def countCompleted (evs : List Event) : Nat :=
  evs.countP (fun e => match e with | .fileCompleted _ => true | _ => false)

/-- Number of stream-connected events in a trace. -/
def countConnected (evs : List Event) : Nat :=
  evs.countP (fun e => match e with | .streamConnected => true | _ => false)

/-- Number of stream-disconnected events in a trace. -/
def countDisconnected (evs : List Event) : Nat :=
  evs.countP (fun e => match e with | .streamDisconnected => true | _ => false)

/-- Number of open segment handles owned by a session, counting both the
current handle and every handle in the finalized-files history. -/
def openHandleCount (s : RecordingSession) : Nat :=
  (s.closedSegments.countP (·.isOpen)) +
    (match s.currentSegment with
     | some h => if h.isOpen then 1 else 0
     | none => 0)

/-! ## Canonical input streams

A continuous stream is a run of data units with consecutive presentation
timestamps (one stream-time unit apart), all of equal size and all key
boundaries — the shape produced by the test harness's constant-rate,
key-frame-aligned test source. -/

/-- `k` data units of payload size `sz` at consecutive timestamps `p, p+1, …`. -/
def unitsFrom (sz p : Nat) : Nat → List SourceInput
  | 0 => []
  | k+1 => SourceInput.dataUnit ⟨sz, p, true⟩ :: unitsFrom sz (p+1) k

/-- A full recording session over a continuous stream of `len` units:
start, source connects at stream time 0, the stream, then an asynchronous
stop completed by the writer's flush. -/
def continuousScenario (sz len : Nat) : List SourceInput :=
  SourceInput.startRecording "srt://127.0.0.1:8888" ::
    SourceInput.sourceConnected 0 ::
    (unitsFrom sz 0 len ++ [SourceInput.stopRecording, SourceInput.eos false])

/-- The segment handle after appending `k` consecutive units of size `sz` at
timestamps `p, p+1, …` to `seg`. -/
def appendMany (seg : SegmentHandle) (sz p : Nat) : Nat → SegmentHandle
  | 0 => seg
  | k+1 => appendMany (appendOne seg sz p) sz (p+1) k

/-- An in-progress output file `q` opened at stream time `o` holding `j`
consecutive units of size `sz` (for `j ≥ 1`). -/
def partialSeg (fmt : ContainerFormat) (dir : String) (sz q o j : Nat) : SegmentHandle :=
  ⟨makeFilePath dir q fmt, o, j * sz, j, o + j - 1, true, fmt⟩

/-- The session in steady recording with file `q` (opened at `o`) holding `K`
units — exactly full, so that the next unit triggers rotation. -/
def midRec (fmt : ContainerFormat) (dir : String) (mD mB : Option Nat)
    (sz K q o : Nat) (closed : List SegmentHandle) : RecordingSession :=
  { state := SessionState.Recording
    containerFormat := fmt
    maxSegmentDuration := mD
    maxSegmentBytes := mB
    outputDirectory := dir
    currentSegment := some (partialSeg fmt dir sz q o K)
    closedSegments := closed
    gaps := GapTracker.empty
    streamAttached := true
    nextSequence := q + 1 }

/-- The session after a completed stop with finalized files `closed` and `q`
files opened in total. -/
def doneSession (fmt : ContainerFormat) (dir : String) (mD mB : Option Nat)
    (closed : List SegmentHandle) (q : Nat) : RecordingSession :=
  { state := SessionState.Stopped
    containerFormat := fmt
    maxSegmentDuration := mD
    maxSegmentBytes := mB
    outputDirectory := dir
    currentSegment := none
    closedSegments := closed
    gaps := GapTracker.empty
    streamAttached := true
    nextSequence := q }

/-- A finalized file of exactly `j` units. -/
def closedPartial (fmt : ContainerFormat) (dir : String) (sz q o j : Nat) : SegmentHandle :=
  { partialSeg fmt dir sz q o j with isOpen := false }

/-- `n` consecutive finalized files of `K` units each, numbered from `q`,
opened `K` stream-time units apart from `o`. -/
def closedFulls (fmt : ContainerFormat) (dir : String) (sz K q o : Nat) :
    Nat → List SegmentHandle
  | 0 => []
  | n+1 => closedPartial fmt dir sz q o K :: closedFulls fmt dir sz K (q+1) (o+K) n

/-! ## Basic run lemmas -/

theorem execS_append (s : RecordingSession) (l1 l2 : List SourceInput) :
    execS s (l1 ++ l2) = execS (execS s l1) l2 := by
  induction l1 generalizing s with
  | nil => rfl
  | cons i is ih => simp [execS, ih]

theorem traceE_append (s : RecordingSession) (l1 l2 : List SourceInput) :
    traceE s (l1 ++ l2) = traceE s l1 ++ traceE (execS s l1) l2 := by
  induction l1 generalizing s with
  | nil => rfl
  | cons i is ih => simp [execS, traceE, ih]

theorem traceRun_append (t : Option TraceState) (l1 l2 : List Event) :
    traceRun t (l1 ++ l2) = traceRun (traceRun t l1) l2 := by
  induction l1 generalizing t with
  | nil => rfl
  | cons e r ih => simp [traceRun, ih]

theorem traceRun_none (l : List Event) : traceRun none l = none := by
  induction l with
  | nil => rfl
  | cons e r ih => simpa [traceRun] using ih

/-- A unit that does not trigger rotation is appended to the open segment. -/
theorem step_data_append_general (s : RecordingSession) (seg : SegmentHandle) (u : DataUnit)
    (hcond : s.state = SessionState.Recording ∨
      (s.state = SessionState.Stopping ∧ s.streamAttached = true))
    (hseg : s.currentSegment = some seg)
    (hnr : (shouldRotate s.maxSegmentDuration s.maxSegmentBytes seg
      u.presentationTimestamp && u.isKeyBoundary) = false) :
    step s (SourceInput.dataUnit u) =
      ⟨{ s with currentSegment := some (appendOne seg u.payloadSize u.presentationTimestamp) },
       [], none⟩ := by
  simp only [step, if_pos hcond, hseg, hnr, Bool.false_eq_true, if_false]

theorem step_data_append (s : RecordingSession) (seg : SegmentHandle) (sz p : Nat)
    (hst : s.state = SessionState.Recording)
    (hseg : s.currentSegment = some seg)
    (hnr : shouldRotate s.maxSegmentDuration s.maxSegmentBytes seg p = false) :
    step s (SourceInput.dataUnit ⟨sz, p, true⟩) =
      ⟨{ s with currentSegment := some (appendOne seg sz p) }, [], none⟩ :=
  step_data_append_general s seg ⟨sz, p, true⟩ (Or.inl hst) hseg (by simp [hnr])

/-- A key-boundary unit with rotation due finalizes the current file and opens
the next one, which receives the unit. -/
theorem step_data_rotate_general (s : RecordingSession) (seg : SegmentHandle) (u : DataUnit)
    (hcond : s.state = SessionState.Recording ∨
      (s.state = SessionState.Stopping ∧ s.streamAttached = true))
    (hseg : s.currentSegment = some seg)
    (hr : (shouldRotate s.maxSegmentDuration s.maxSegmentBytes seg
      u.presentationTimestamp && u.isKeyBoundary) = true) :
    step s (SourceInput.dataUnit u) =
      ⟨{ s with
           currentSegment := some (appendOne
             (freshSegment (makeFilePath s.outputDirectory s.nextSequence s.containerFormat)
               u.presentationTimestamp s.containerFormat) u.payloadSize u.presentationTimestamp)
           closedSegments := s.closedSegments ++ [{ seg with isOpen := false }]
           gaps := GapTracker.empty
           nextSequence := s.nextSequence + 1 },
       [Event.fileCompleted seg.filePath,
        Event.fileCreated (makeFilePath s.outputDirectory s.nextSequence s.containerFormat)],
       none⟩ := by
  simp only [step, if_pos hcond, hseg, hr, if_true, closeSegment, openNewSegment,
    Option.map_some']
  rfl

theorem step_data_rotate (s : RecordingSession) (seg : SegmentHandle) (sz p : Nat)
    (hst : s.state = SessionState.Recording)
    (hseg : s.currentSegment = some seg)
    (hr : shouldRotate s.maxSegmentDuration s.maxSegmentBytes seg p = true) :
    step s (SourceInput.dataUnit ⟨sz, p, true⟩) =
      ⟨{ s with
           currentSegment := some (appendOne
             (freshSegment (makeFilePath s.outputDirectory s.nextSequence s.containerFormat)
               p s.containerFormat) sz p)
           closedSegments := s.closedSegments ++ [{ seg with isOpen := false }]
           gaps := GapTracker.empty
           nextSequence := s.nextSequence + 1 },
       [Event.fileCompleted seg.filePath,
        Event.fileCreated (makeFilePath s.outputDirectory s.nextSequence s.containerFormat)],
       none⟩ :=
  step_data_rotate_general s seg ⟨sz, p, true⟩ (Or.inl hst) hseg (by simp [hr])

/-- Consecutive units appended to a partially filled file just extend it. -/
theorem appendOne_partialSeg (fmt : ContainerFormat) (dir : String) (sz q o j : Nat)
    (_hj : 1 ≤ j) :
    appendOne (partialSeg fmt dir sz q o j) sz (o + j) =
      partialSeg fmt dir sz q o (j + 1) := by
  simp [appendOne, partialSeg, add_one_mul]

theorem appendMany_partialSeg (fmt : ContainerFormat) (dir : String) (sz q o : Nat) :
    ∀ (i j : Nat), 1 ≤ j →
      appendMany (partialSeg fmt dir sz q o j) sz (o + j) i =
      partialSeg fmt dir sz q o (j + i) := by
  intro i
  induction i with
  | zero => intro j hj; simp [appendMany]
  | succ k ih =>
      intro j hj
      calc appendMany (partialSeg fmt dir sz q o j) sz (o + j) (k + 1)
          = appendMany (partialSeg fmt dir sz q o (j+1)) sz (o + (j+1)) k := by
            simp [appendMany, appendOne_partialSeg fmt dir sz q o j hj, Nat.add_assoc]
        _ = partialSeg fmt dir sz q o (j + 1 + k) := ih (j+1) (by omega)
        _ = partialSeg fmt dir sz q o (j + (k+1)) := by
            rw [show j + 1 + k = j + (k + 1) by omega]

/-- Absorption: while the rotation policy stays quiet, a run of consecutive
units only grows the open segment and emits nothing. -/
theorem execS_absorb (sz : Nat) :
    ∀ (k : Nat) (s : RecordingSession) (seg : SegmentHandle) (p : Nat),
    s.state = SessionState.Recording →
    s.currentSegment = some seg →
    (∀ i, i < k →
      shouldRotate s.maxSegmentDuration s.maxSegmentBytes (appendMany seg sz p i) (p + i) = false) →
    execS s (unitsFrom sz p k) = { s with currentSegment := some (appendMany seg sz p k) } := by
  intro k
  induction k with
  | zero =>
      intro s seg p hst hseg _
      simp [unitsFrom, execS, appendMany, ← hseg]
  | succ k ih =>
      intro s seg p hst hseg hnr
      have h0 := hnr 0 (Nat.succ_pos k)
      simp only [appendMany, Nat.add_zero] at h0
      have hstep := step_data_append s seg sz p hst hseg h0
      simp only [unitsFrom, execS, hstep]
      have := ih { s with currentSegment := some (appendOne seg sz p) }
        (appendOne seg sz p) (p+1) (by simp [hst]) (by simp)
        (by
          intro i hi
          have := hnr (i+1) (by omega)
          simpa [appendMany, Nat.add_assoc, Nat.add_comm, Nat.add_left_comm] using this)
      simp only [this]
      rfl

/-- Absorption restated for traces: no events are emitted. -/
theorem traceE_absorb (sz : Nat) :
    ∀ (k : Nat) (s : RecordingSession) (seg : SegmentHandle) (p : Nat),
    s.state = SessionState.Recording →
    s.currentSegment = some seg →
    (∀ i, i < k →
      shouldRotate s.maxSegmentDuration s.maxSegmentBytes (appendMany seg sz p i) (p + i) = false) →
    traceE s (unitsFrom sz p k) = [] := by
  intro k
  induction k with
  | zero => intro s seg p _ _ _; simp [unitsFrom, traceE]
  | succ k ih =>
      intro s seg p hst hseg hnr
      have h0 := hnr 0 (Nat.succ_pos k)
      simp only [appendMany, Nat.add_zero] at h0
      have hstep := step_data_append s seg sz p hst hseg h0
      simp only [unitsFrom, traceE, hstep]
      exact ih { s with currentSegment := some (appendOne seg sz p) }
        (appendOne seg sz p) (p+1) (by simp [hst]) (by simp)
        (by
          intro i hi
          have := hnr (i+1) (by omega)
          simpa [appendMany, Nat.add_assoc, Nat.add_comm, Nat.add_left_comm] using this)

theorem unitsFrom_append (sz : Nat) :
    ∀ (a p b : Nat), unitsFrom sz p (a + b) = unitsFrom sz p a ++ unitsFrom sz (p + a) b := by
  intro a
  induction a with
  | zero => intro p b; simp [unitsFrom]
  | succ k ih =>
      intro p b
      have : k + 1 + b = (k + b) + 1 := by omega
      rw [this]
      simp only [unitsFrom, ih (p+1) b, List.cons_append]
      rw [show p + 1 + k = p + (k + 1) by omega]

/-- The first unit appended to a freshly rotated file. -/
theorem appendOne_fresh (fmt : ContainerFormat) (dir : String) (sz q t : Nat) :
    appendOne (freshSegment (makeFilePath dir q fmt) t fmt) sz t =
      partialSeg fmt dir sz q t 1 := by
  simp [appendOne, freshSegment, partialSeg]

/-- Rotation boundary: from a session holding an exactly full file, the next
`K` units finalize that file and leave the following file exactly full. -/
theorem exec_one_file (fmt : ContainerFormat) (dir : String) (mD mB : Option Nat)
    (sz K : Nat) (hK : 1 ≤ K)
    (Hrot : ∀ q' o', shouldRotate mD mB (partialSeg fmt dir sz q' o' K) (o' + K) = true)
    (Habs : ∀ q' o' j, 1 ≤ j → j < K →
      shouldRotate mD mB (partialSeg fmt dir sz q' o' j) (o' + j) = false)
    (q o : Nat) (closed : List SegmentHandle) :
    execS (midRec fmt dir mD mB sz K q o closed) (unitsFrom sz (o + K) K) =
      midRec fmt dir mD mB sz K (q+1) (o+K)
        (closed ++ [closedPartial fmt dir sz q o K]) := by
  obtain ⟨K', rfl⟩ : ∃ K', K = K' + 1 := ⟨K - 1, by omega⟩
  have hrot := step_data_rotate (midRec fmt dir mD mB sz (K'+1) q o closed)
    (partialSeg fmt dir sz q o (K'+1)) sz (o + (K'+1)) rfl rfl
    (Hrot q o)
  simp only [unitsFrom, execS, hrot]
  have habs := execS_absorb sz K'
    { midRec fmt dir mD mB sz (K'+1) q o closed with
        currentSegment := some (appendOne
          (freshSegment (makeFilePath dir (q+1) fmt) (o + (K'+1)) fmt) sz (o + (K'+1)))
        closedSegments := closed ++ [{ partialSeg fmt dir sz q o (K'+1) with isOpen := false }]
        gaps := GapTracker.empty
        nextSequence := q + 2 }
    (partialSeg fmt dir sz (q+1) (o + (K'+1)) 1) (o + (K'+1) + 1)
    rfl (by simp [appendOne_fresh])
    (by
      intro i hi
      rw [appendMany_partialSeg fmt dir sz (q+1) (o + (K'+1)) i 1 (by omega)]
      have := Habs (q+1) (o + (K'+1)) (1 + i) (by omega) (by omega)
      rw [show o + (K'+1) + 1 + i = o + (K'+1) + (1 + i) by omega]
      exact this)
  rw [show midRec fmt dir mD mB sz (K'+1) q o closed
        = { midRec fmt dir mD mB sz (K'+1) q o closed with state := SessionState.Recording }
      from rfl] at habs
  simp only [midRec] at hrot habs ⊢
  rw [habs]
  rw [appendMany_partialSeg fmt dir sz (q+1) (o + (K'+1)) K' 1 (by omega)]
  simp [closedPartial, Nat.add_comm 1 K']

/-- The tail of the stream plus the asynchronous stop: one more rotation, a
final short file of `r` units, and the flush that finalizes it. -/
theorem exec_last_file (fmt : ContainerFormat) (dir : String) (mD mB : Option Nat)
    (sz K : Nat) (_hK : 1 ≤ K)
    (Hrot : ∀ q' o', shouldRotate mD mB (partialSeg fmt dir sz q' o' K) (o' + K) = true)
    (Habs : ∀ q' o' j, 1 ≤ j → j < K →
      shouldRotate mD mB (partialSeg fmt dir sz q' o' j) (o' + j) = false)
    (r : Nat) (hr : 1 ≤ r) (hrK : r < K)
    (q o : Nat) (closed : List SegmentHandle) :
    execS (midRec fmt dir mD mB sz K q o closed)
        (unitsFrom sz (o + K) r ++ [SourceInput.stopRecording, SourceInput.eos false]) =
      doneSession fmt dir mD mB
        (closed ++ [closedPartial fmt dir sz q o K, closedPartial fmt dir sz (q+1) (o+K) r])
        (q+2) := by
  obtain ⟨r', rfl⟩ : ∃ r', r = r' + 1 := ⟨r - 1, by omega⟩
  have hrot := step_data_rotate (midRec fmt dir mD mB sz K q o closed)
    (partialSeg fmt dir sz q o K) sz (o + K) rfl rfl (Hrot q o)
  rw [execS_append]
  simp only [unitsFrom, execS, hrot]
  have habs := execS_absorb sz r'
    { midRec fmt dir mD mB sz K q o closed with
        currentSegment := some (appendOne
          (freshSegment (makeFilePath dir (q+1) fmt) (o + K) fmt) sz (o + K))
        closedSegments := closed ++ [{ partialSeg fmt dir sz q o K with isOpen := false }]
        gaps := GapTracker.empty
        nextSequence := q + 2 }
    (partialSeg fmt dir sz (q+1) (o + K) 1) (o + K + 1)
    rfl (by simp [appendOne_fresh])
    (by
      intro i hi
      rw [appendMany_partialSeg fmt dir sz (q+1) (o + K) i 1 (by omega)]
      have := Habs (q+1) (o + K) (1 + i) (by omega) (by omega)
      rw [show o + K + 1 + i = o + K + (1 + i) by omega]
      exact this)
  simp only [midRec] at hrot habs ⊢
  rw [habs]
  rw [appendMany_partialSeg fmt dir sz (q+1) (o + K) r' 1 (by omega)]
  simp [execS, step, closeSegment, doneSession, closedPartial, Nat.add_comm r' 1]

/-- Steady-state chunking: from a session holding an exactly full file, a
continuous stream of `n·K + r` further units followed by an asynchronous stop
produces `n+1` more full files and one final short file of `r` units. -/
theorem exec_files (fmt : ContainerFormat) (dir : String) (mD mB : Option Nat)
    (sz K : Nat) (hK : 1 ≤ K)
    (Hrot : ∀ q' o', shouldRotate mD mB (partialSeg fmt dir sz q' o' K) (o' + K) = true)
    (Habs : ∀ q' o' j, 1 ≤ j → j < K →
      shouldRotate mD mB (partialSeg fmt dir sz q' o' j) (o' + j) = false)
    (r : Nat) (hr : 1 ≤ r) (hrK : r < K) :
    ∀ (n q o : Nat) (closed : List SegmentHandle),
    execS (midRec fmt dir mD mB sz K q o closed)
        (unitsFrom sz (o + K) (n * K + r) ++ [SourceInput.stopRecording, SourceInput.eos false]) =
      doneSession fmt dir mD mB
        (closed ++ closedFulls fmt dir sz K q o (n+1) ++
          [closedPartial fmt dir sz (q+n+1) (o+(n+1)*K) r])
        (q+n+2) := by
  intro n
  induction n with
  | zero =>
      intro q o closed
      have := exec_last_file fmt dir mD mB sz K hK Hrot Habs r hr hrK q o closed
      simpa [closedFulls, one_mul] using this
  | succ n ih =>
      intro q o closed
      rw [show (n+1) * K + r = K + (n * K + r) by ring]
      rw [unitsFrom_append sz K (o+K) (n*K+r)]
      rw [List.append_assoc]
      rw [execS_append]
      rw [exec_one_file fmt dir mD mB sz K hK Hrot Habs q o closed]
      rw [ih (q+1) (o+K) (closed ++ [closedPartial fmt dir sz q o K])]
      have e1 : closedFulls fmt dir sz K q o (n+2) =
          closedPartial fmt dir sz q o K :: closedFulls fmt dir sz K (q+1) (o+K) (n+1) := rfl
      rw [e1]
      have e2 : q + 1 + n + 1 = q + (n+1) + 1 := by omega
      have e3 : o + K + (n+1) * K = o + (n+1+1) * K := by ring
      have e4 : q + 1 + n + 2 = q + (n+1) + 2 := by omega
      rw [e2, e3, e4]
      simp

/-- Units appended from stream time 0 to the session's very first file. -/
theorem appendMany_fresh (fmt : ContainerFormat) (dir : String) (sz q t k : Nat)
    (hk : 1 ≤ k) :
    appendMany (freshSegment (makeFilePath dir q fmt) t fmt) sz t k =
      partialSeg fmt dir sz q t k := by
  obtain ⟨k', rfl⟩ : ∃ k', k = k' + 1 := ⟨k - 1, by omega⟩
  show appendMany (appendOne (freshSegment (makeFilePath dir q fmt) t fmt) sz t) sz (t+1) k'
      = partialSeg fmt dir sz q t (k' + 1)
  rw [appendOne_fresh fmt dir sz q t]
  have := appendMany_partialSeg fmt dir sz q t k' 1 (by omega)
  rw [show t + 1 = t + 1 from rfl] at this
  simpa [Nat.add_comm 1 k'] using this


/-- The session right after the source first connects: Recording, the first
output file freshly opened at stream time 0. -/
def connectedSession (fmt : ContainerFormat) (dir : String) (mD mB : Option Nat) :
    RecordingSession :=
  { state := SessionState.Recording
    containerFormat := fmt
    maxSegmentDuration := mD
    maxSegmentBytes := mB
    outputDirectory := dir
    currentSegment := some (freshSegment (makeFilePath dir 0 fmt) 0 fmt)
    closedSegments := []
    gaps := GapTracker.empty
    streamAttached := true
    nextSequence := 1 }

theorem exec_connect (fmt : ContainerFormat) (dir : String) (mD mB : Option Nat) :
    execS (initialSession fmt dir mD mB)
      [SourceInput.startRecording "srt://127.0.0.1:8888", SourceInput.sourceConnected 0] =
    connectedSession fmt dir mD mB := by
  simp [execS, step, initialSession, openNewSegment, connectedSession]

/-- The first `k` units (no rotation yet) fill the first file. -/
theorem exec_first_units (fmt : ContainerFormat) (dir : String) (mD mB : Option Nat)
    (sz k : Nat) (hk : 1 ≤ k)
    (Hfresh : ∀ path t, shouldRotate mD mB (freshSegment path t fmt) t = false)
    (Habs : ∀ q' o' j, 1 ≤ j → j < k →
      shouldRotate mD mB (partialSeg fmt dir sz q' o' j) (o' + j) = false) :
    execS (connectedSession fmt dir mD mB) (unitsFrom sz 0 k) =
      { connectedSession fmt dir mD mB with
          currentSegment := some (partialSeg fmt dir sz 0 0 k) } := by
  have habs := execS_absorb sz k (connectedSession fmt dir mD mB)
    (freshSegment (makeFilePath dir 0 fmt) 0 fmt) 0 rfl rfl
    (by
      intro i hi
      cases i with
      | zero => simpa [appendMany, connectedSession] using Hfresh (makeFilePath dir 0 fmt) 0
      | succ i' =>
          rw [appendMany_fresh fmt dir sz 0 0 (i'+1) (by omega)]
          have := Habs 0 0 (i'+1) (by omega) (by omega)
          simpa [connectedSession] using this)
  rw [habs, appendMany_fresh fmt dir sz 0 0 k hk]

/-- The whole continuous-stream session, generically in the rotation policy:
`N` full files of `K` units each and a final short file of `r` units. -/
theorem exec_continuous (fmt : ContainerFormat) (dir : String) (mD mB : Option Nat)
    (sz K : Nat) (hK : 1 ≤ K)
    (Hfresh : ∀ path t, shouldRotate mD mB (freshSegment path t fmt) t = false)
    (Hrot : ∀ q' o', shouldRotate mD mB (partialSeg fmt dir sz q' o' K) (o' + K) = true)
    (Habs : ∀ q' o' j, 1 ≤ j → j < K →
      shouldRotate mD mB (partialSeg fmt dir sz q' o' j) (o' + j) = false)
    (N r : Nat) (hr : 1 ≤ r) (hrK : r < K) :
    execS (initialSession fmt dir mD mB) (continuousScenario sz (N * K + r)) =
      doneSession fmt dir mD mB
        (closedFulls fmt dir sz K 0 0 N ++ [closedPartial fmt dir sz N (N*K) r])
        (N + 1) := by
  have hsplit : continuousScenario sz (N * K + r) =
      [SourceInput.startRecording "srt://127.0.0.1:8888", SourceInput.sourceConnected 0] ++
      (unitsFrom sz 0 (N * K + r) ++ [SourceInput.stopRecording, SourceInput.eos false]) := by
    simp [continuousScenario]
  rw [hsplit, execS_append, exec_connect]
  cases N with
  | zero =>
      rw [execS_append]
      simp only [Nat.zero_mul, Nat.zero_add]
      rw [exec_first_units fmt dir mD mB sz r hr Hfresh
        (fun q' o' j h1 h2 => Habs q' o' j h1 (by omega))]
      simp [execS, step, connectedSession, closeSegment, doneSession, closedFulls,
        closedPartial]
  | succ n =>
      rw [show (n+1) * K + r = K + (n * K + r) by ring]
      rw [unitsFrom_append sz K 0 (n*K+r)]
      rw [List.append_assoc, execS_append]
      rw [exec_first_units fmt dir mD mB sz K hK Hfresh Habs]
      have hmid : ({ connectedSession fmt dir mD mB with
          currentSegment := some (partialSeg fmt dir sz 0 0 K) } : RecordingSession) =
          midRec fmt dir mD mB sz K 0 0 [] := rfl
      rw [hmid]
      have := exec_files fmt dir mD mB sz K hK Hrot Habs r hr hrK n 0 0 []
      simp only [Nat.zero_add, List.nil_append] at this
      rw [show (0:Nat) + K = K by omega, show n + 1 + 1 = n + 2 by omega]
      exact this

theorem closedFulls_length (fmt : ContainerFormat) (dir : String) (sz K : Nat) :
    ∀ (n q o : Nat), (closedFulls fmt dir sz K q o n).length = n := by
  intro n
  induction n with
  | zero => intro q o; rfl
  | succ k ih => intro q o; simp [closedFulls, ih]

theorem segDuration_closedPartial (fmt : ContainerFormat) (dir : String)
    (sz q o j : Nat) (hj : 1 ≤ j) :
    segDuration (closedPartial fmt dir sz q o j) = j - 1 := by
  simp [segDuration, closedPartial, partialSeg]
  omega

theorem bytes_closedPartial (fmt : ContainerFormat) (dir : String) (sz q o j : Nat) :
    (closedPartial fmt dir sz q o j).bytesWritten = j * sz := rfl

theorem closedFulls_map_duration (fmt : ContainerFormat) (dir : String) (sz K : Nat)
    (hK : 1 ≤ K) :
    ∀ (n q o : Nat),
      (closedFulls fmt dir sz K q o n).map segDuration = List.replicate n (K - 1) := by
  intro n
  induction n with
  | zero => intro q o; rfl
  | succ k ih =>
      intro q o
      simp [closedFulls, ih, segDuration_closedPartial fmt dir sz q o K hK,
        List.replicate_succ]

theorem closedFulls_map_bytes (fmt : ContainerFormat) (dir : String) (sz K : Nat) :
    ∀ (n q o : Nat),
      (closedFulls fmt dir sz K q o n).map (·.bytesWritten) = List.replicate n (K * sz) := by
  intro n
  induction n with
  | zero => intro q o; rfl
  | succ k ih =>
      intro k' o
      simp [closedFulls, ih, bytes_closedPartial, List.replicate_succ, closedPartial,
        partialSeg]

/-- Time-based rotation instance of the continuous-stream run. -/
theorem exec_time_run (fmt : ContainerFormat) (dir : String) (sz D N r : Nat)
    (hr : 1 ≤ r) (hrD : r < D) :
    execS (initialSession fmt dir (some D) none) (continuousScenario sz (N * D + r)) =
      doneSession fmt dir (some D) none
        (closedFulls fmt dir sz D 0 0 N ++ [closedPartial fmt dir sz N (N*D) r])
        (N + 1) := by
  apply exec_continuous fmt dir (some D) none sz D (by omega)
  · intro path t
    simp [shouldRotate, freshSegment]
    omega
  · intro q' o'
    simp [shouldRotate, partialSeg]
  · intro q' o' j h1 h2
    simp [shouldRotate, partialSeg]
    omega
  · exact hr
  · exact hrD

/-- Byte-based rotation instance of the continuous-stream run, for unit size
`sz` and byte limit `B`, where `K` is the least unit count with `K·sz ≥ B`. -/
theorem exec_bytes_run (fmt : ContainerFormat) (dir : String) (sz B K N r : Nat)
    (_hsz : 1 ≤ sz) (hKB : B ≤ K * sz) (hKmin : (K - 1) * sz < B)
    (hr : 1 ≤ r) (hrK : r < K) :
    execS (initialSession fmt dir none (some B)) (continuousScenario sz (N * K + r)) =
      doneSession fmt dir none (some B)
        (closedFulls fmt dir sz K 0 0 N ++ [closedPartial fmt dir sz N (N*K) r])
        (N + 1) := by
  have hB : 1 ≤ B := by
    rcases Nat.eq_zero_or_pos B with h | h
    · omega
    · omega
  apply exec_continuous fmt dir none (some B) sz K (by omega)
  · intro path t
    simp [shouldRotate, freshSegment]
    omega
  · intro q' o'
    simp [shouldRotate, partialSeg]
    omega
  · intro q' o' j h1 h2
    simp [shouldRotate, partialSeg]
    have : j * sz ≤ (K - 1) * sz := Nat.mul_le_mul_right sz (by omega)
    omega
  · exact hr
  · exact hrK

/-- The session at the end of a continuous recording with time-based rotation. -/
def timeRun (fmt : ContainerFormat) (dir : String) (sz D len : Nat) : RecordingSession :=
  execS (initialSession fmt dir (some D) none) (continuousScenario sz len)

/-- The session at the end of a continuous recording with byte-based rotation. -/
def bytesRun (fmt : ContainerFormat) (dir : String) (sz B len : Nat) : RecordingSession :=
  execS (initialSession fmt dir none (some B)) (continuousScenario sz len)

/-- **C2**: with `maxSegmentDuration = D` and a continuous input stream of
length `N·D + r` (0 < r < D) data units one stream-time unit apart, the
session produces exactly `N+1` output files; the first `N` each cover a
duration within one unit of `D` and the last covers a duration strictly
less than `D`. -/
theorem split_time_shape (fmt : ContainerFormat) (dir : String) (sz D N r : Nat)
    (hr : 1 ≤ r) (hrD : r < D) :
    (timeRun fmt dir sz D (N * D + r)).closedSegments.length = N + 1 ∧
    (timeRun fmt dir sz D (N * D + r)).closedSegments.map segDuration =
      List.replicate N (D - 1) ++ [r - 1] ∧
    (∀ d ∈ ((timeRun fmt dir sz D (N * D + r)).closedSegments.map segDuration).take N,
      D - d ≤ 1 ∧ d - D ≤ 1) ∧
    ((timeRun fmt dir sz D (N * D + r)).closedSegments.map segDuration).getLast? =
      some (r - 1) ∧
    r - 1 < D := by
  have hrun := exec_time_run fmt dir sz D N r hr hrD
  have hmap : (timeRun fmt dir sz D (N * D + r)).closedSegments.map segDuration =
      List.replicate N (D - 1) ++ [r - 1] := by
    rw [timeRun, hrun]
    simp only [doneSession, List.map_append,
      closedFulls_map_duration fmt dir sz D (by omega) N 0 0, List.map_cons, List.map_nil,
      segDuration_closedPartial fmt dir sz N (N*D) r hr]
  refine ⟨?_, hmap, ?_, ?_, by omega⟩
  · rw [timeRun, hrun]
    simp [doneSession, closedFulls_length]
  · intro d hd
    rw [hmap] at hd
    rw [List.take_left' (by simp)] at hd
    have := List.eq_of_mem_replicate hd
    omega
  · rw [hmap]
    exact List.getLast?_concat _

/-- Witness for `split_time_shape` at `D = 5`, `N = 2`, `r = 3`. -/
theorem split_time_shape_witness :
    (1 ≤ 3 ∧ 3 < 5) ∧
    ((timeRun ContainerFormat.mp4 "/tmp" 1 5 (2 * 5 + 3)).closedSegments.length = 2 + 1 ∧
     (timeRun ContainerFormat.mp4 "/tmp" 1 5 (2 * 5 + 3)).closedSegments.map segDuration =
       List.replicate 2 (5 - 1) ++ [3 - 1] ∧
     (∀ d ∈ ((timeRun ContainerFormat.mp4 "/tmp" 1 5 (2 * 5 + 3)).closedSegments.map
         segDuration).take 2, 5 - d ≤ 1 ∧ d - 5 ≤ 1) ∧
     ((timeRun ContainerFormat.mp4 "/tmp" 1 5 (2 * 5 + 3)).closedSegments.map
         segDuration).getLast? = some (3 - 1) ∧
     3 - 1 < 5) :=
  ⟨by decide,
   split_time_shape ContainerFormat.mp4 "/tmp" 1 5 2 3 (by decide) (by decide)⟩

/-- **C3**: with `maxSegmentBytes = B` and constant-bitrate input (units of a
fixed size `sz`, with `K` the least unit count whose bytes reach `B`), a
continuous stream of `N·K + r` units (0 < r < K) produces exactly `N+1`
files; every file except the last has size within one unit of `B` (at least
`B`, less than `B + sz`), and the final file's size is strictly below `B`. -/
theorem split_bytes_shape (fmt : ContainerFormat) (dir : String) (sz B K N r : Nat)
    (hsz : 1 ≤ sz) (hKB : B ≤ K * sz) (hKmin : (K - 1) * sz < B)
    (hr : 1 ≤ r) (hrK : r < K) :
    (bytesRun fmt dir sz B (N * K + r)).closedSegments.length = N + 1 ∧
    (bytesRun fmt dir sz B (N * K + r)).closedSegments.map (·.bytesWritten) =
      List.replicate N (K * sz) ++ [r * sz] ∧
    (∀ b ∈ ((bytesRun fmt dir sz B (N * K + r)).closedSegments.map (·.bytesWritten)).take N,
      B ≤ b ∧ b - B < sz) ∧
    ((bytesRun fmt dir sz B (N * K + r)).closedSegments.map (·.bytesWritten)).getLast? =
      some (r * sz) ∧
    r * sz < B := by
  have hrun := exec_bytes_run fmt dir sz B K N r hsz hKB hKmin hr hrK
  have hlast : r * sz < B := by
    have h1 : r * sz ≤ (K - 1) * sz := Nat.mul_le_mul_right sz (by omega)
    omega
  have hmap : (bytesRun fmt dir sz B (N * K + r)).closedSegments.map (·.bytesWritten) =
      List.replicate N (K * sz) ++ [r * sz] := by
    rw [bytesRun, hrun]
    simp only [doneSession, List.map_append,
      closedFulls_map_bytes fmt dir sz K N 0 0, List.map_cons, List.map_nil,
      bytes_closedPartial]
  refine ⟨?_, hmap, ?_, ?_, hlast⟩
  · rw [bytesRun, hrun]
    simp [doneSession, closedFulls_length]
  · intro b hb
    rw [hmap] at hb
    rw [List.take_left' (by simp)] at hb
    have hbe := List.eq_of_mem_replicate hb
    subst hbe
    have hK1 : 1 ≤ K := by omega
    have : (K - 1) * sz = K * sz - sz := by
      rw [Nat.sub_mul, one_mul]
    constructor
    · exact hKB
    · omega
  · rw [hmap]
    exact List.getLast?_concat _

/-- Witness for `split_bytes_shape` at `sz = 2`, `B = 5`, `K = 3`, `N = 2`, `r = 2`. -/
theorem split_bytes_shape_witness :
    (1 ≤ 2 ∧ 5 ≤ 3 * 2 ∧ (3 - 1) * 2 < 5 ∧ 1 ≤ 2 ∧ 2 < 3) ∧
    ((bytesRun ContainerFormat.ts "/tmp" 2 5 (2 * 3 + 2)).closedSegments.length = 2 + 1 ∧
     (bytesRun ContainerFormat.ts "/tmp" 2 5 (2 * 3 + 2)).closedSegments.map (·.bytesWritten) =
       List.replicate 2 (3 * 2) ++ [2 * 2] ∧
     (∀ b ∈ ((bytesRun ContainerFormat.ts "/tmp" 2 5 (2 * 3 + 2)).closedSegments.map
         (·.bytesWritten)).take 2, 5 ≤ b ∧ b - 5 < 2) ∧
     ((bytesRun ContainerFormat.ts "/tmp" 2 5 (2 * 3 + 2)).closedSegments.map
         (·.bytesWritten)).getLast? = some (2 * 2) ∧
     2 * 2 < 5) :=
  ⟨by decide,
   split_bytes_shape ContainerFormat.ts "/tmp" 2 5 3 2 2
     (by decide) (by decide) (by decide) (by decide) (by decide)⟩

/-! ## The run invariant

`RunInv s evs` couples a reachable session with the trace it has emitted so far:
the trace is accepted by the §6 ordering automaton and ends in the state
described by the session; handles and event paths are well-formed. -/

structure RunInv (s : RecordingSession) (evs : List Event) : Prop where
  closedClosed : ∀ h ∈ s.closedSegments, h.isOpen = false
  curOpen : ∀ h, s.currentSegment = some h → h.isOpen = true
  stoppedClosed : s.state = SessionState.Stopped → s.currentSegment = none
  noStreamNoSeg : s.streamAttached = false → s.currentSegment = none
  recAttached : s.state = SessionState.Recording → s.streamAttached = true
  idleClean : s.state = SessionState.Idle →
    s.streamAttached = false ∧ s.currentSegment = none
  trace : traceRun (some traceStart) evs = some (traceStateOf s)
  fmtClosed : ∀ h ∈ s.closedSegments, h.format = s.containerFormat ∧
    ∃ p, h.filePath = p ++ extensionFor s.containerFormat
  fmtCur : ∀ h, s.currentSegment = some h → h.format = s.containerFormat ∧
    ∃ p, h.filePath = p ++ extensionFor s.containerFormat
  evPaths : ∀ pa, (Event.fileCreated pa ∈ evs ∨ Event.fileCompleted pa ∈ evs) →
    ∃ p, pa = p ++ extensionFor s.containerFormat

/-- The invariant holds of a freshly constructed session. -/
theorem runInv_initial (fmt : ContainerFormat) (dir : String) (mD mB : Option Nat) :
    RunInv (initialSession fmt dir mD mB) [] := by
  refine ⟨?_, ?_, ?_, ?_, ?_, ?_, ?_, ?_, ?_, ?_⟩ <;>
    simp [initialSession, traceRun, traceStart, traceStateOf]

/-- Transitions that only touch the state and gap tracker, emit nothing, and
preserve the automaton state preserve the invariant. -/
theorem runInv_mild (s : RecordingSession) (evs : List Event) (h : RunInv s evs)
    (st' : SessionState) (gaps' : GapTracker)
    (hdone : (decide (st' = SessionState.Stopped) && s.streamAttached) =
      (decide (s.state = SessionState.Stopped) && s.streamAttached))
    (hstop : st' = SessionState.Stopped → s.currentSegment = none)
    (hrec : st' = SessionState.Recording → s.streamAttached = true)
    (hidle : st' = SessionState.Idle →
      s.streamAttached = false ∧ s.currentSegment = none) :
    RunInv { s with state := st', gaps := gaps' } (evs ++ []) := by
  refine ⟨?_, ?_, ?_, ?_, ?_, ?_, ?_, ?_, ?_, ?_⟩
  · simpa using h.closedClosed
  · simpa using h.curOpen
  · simpa using hstop
  · simpa using h.noStreamNoSeg
  · simpa using hrec
  · simpa using hidle
  · rw [List.append_nil, h.trace]
    simp only [traceStateOf, hdone]
  · simpa using h.fmtClosed
  · simpa using h.fmtCur
  · simpa using h.evPaths

/-- Appending a unit to the open segment preserves the invariant. -/
theorem runInv_appendOne (s : RecordingSession) (evs : List Event) (h : RunInv s evs)
    (seg : SegmentHandle) (hseg : s.currentSegment = some seg) (sz ts : Nat) :
    RunInv { s with currentSegment := some (appendOne seg sz ts) } (evs ++ []) := by
  have hne : s.state ≠ SessionState.Stopped := by
    intro hst
    rw [h.stoppedClosed hst] at hseg
    exact Option.noConfusion hseg
  have hatt : s.streamAttached = true := by
    cases hb : s.streamAttached with
    | false => rw [h.noStreamNoSeg hb] at hseg; exact Option.noConfusion hseg
    | true => rfl
  refine ⟨?_, ?_, ?_, ?_, ?_, ?_, ?_, ?_, ?_, ?_⟩
  · simpa using h.closedClosed
  · intro h' hh'
    simp only at hh'
    cases hh'
    simpa [appendOne] using h.curOpen seg hseg
  · intro hst; exact absurd hst hne
  · intro hb; rw [hatt] at hb; exact Bool.noConfusion hb
  · intro _; exact hatt
  · intro hst
    have := (h.idleClean hst).1
    rw [hatt] at this; exact Bool.noConfusion this
  · rw [List.append_nil, h.trace]
    simp [traceStateOf, hseg]
  · simpa using h.fmtClosed
  · intro h' hh'
    simp only at hh'
    cases hh'
    simpa [appendOne] using h.fmtCur seg hseg
  · simpa using h.evPaths

/-- First connect of the session: emits stream-connected and opens file 0. -/
theorem step_connect_first (s : RecordingSession) (ts : Nat)
    (hst : s.state = SessionState.WaitingForStream) (hatt : s.streamAttached = false) :
    step s (SourceInput.sourceConnected ts) =
      ⟨{ s with
           state := SessionState.Recording
           streamAttached := true
           currentSegment := some (freshSegment
             (makeFilePath s.outputDirectory s.nextSequence s.containerFormat) ts
             s.containerFormat)
           gaps := GapTracker.empty
           nextSequence := s.nextSequence + 1 },
       [Event.streamConnected,
        Event.fileCreated (makeFilePath s.outputDirectory s.nextSequence s.containerFormat)],
       none⟩ := by
  simp [step, hst, hatt, openNewSegment]

/-- Reconnect: the gap is closed and the same segment continues. -/
theorem step_connect_re (s : RecordingSession) (ts : Nat)
    (hst : s.state = SessionState.WaitingForStream) (hatt : s.streamAttached = true) :
    step s (SourceInput.sourceConnected ts) =
      ⟨{ s with state := SessionState.Recording, gaps := s.gaps.recordReconnect ts },
       [], none⟩ := by
  simp [step, hst, hatt]

/-- A data unit arriving with no open segment opens a fresh file (the deferred
rotation of spec §3: an empty pending file is only opened when data arrives). -/
theorem step_data_open (s : RecordingSession) (u : DataUnit)
    (hcond : s.state = SessionState.Recording ∨
      (s.state = SessionState.Stopping ∧ s.streamAttached = true))
    (hcur : s.currentSegment = none) :
    step s (SourceInput.dataUnit u) =
      ⟨{ s with
           currentSegment := some (appendOne
             (freshSegment (makeFilePath s.outputDirectory s.nextSequence s.containerFormat)
               u.presentationTimestamp s.containerFormat) u.payloadSize u.presentationTimestamp)
           gaps := GapTracker.empty
           nextSequence := s.nextSequence + 1 },
       [Event.fileCreated (makeFilePath s.outputDirectory s.nextSequence s.containerFormat)],
       none⟩ := by
  simp only [step, if_pos hcond, hcur, openNewSegment, Option.map_some']

/-- Completing an asynchronous stop with an open segment: the file is
finalized (flush errors surfaced, handle released regardless) and
stream-disconnected ends the trace. -/
theorem step_eos_close (s : RecordingSession) (seg : SegmentHandle) (flush : Bool)
    (hst : s.state = SessionState.Stopping) (hcur : s.currentSegment = some seg)
    (hatt : s.streamAttached = true) :
    step s (SourceInput.eos flush) =
      ⟨{ s with
           state := SessionState.Stopped
           currentSegment := none
           closedSegments := s.closedSegments ++ [{ seg with isOpen := false }] },
       [Event.fileCompleted seg.filePath, Event.streamDisconnected],
       if flush then some RecorderError.IoError else none⟩ := by
  simp [step, hst, closeSegment, hcur, hatt]

/-- Completing an asynchronous stop with nothing open and a stream attached. -/
theorem step_eos_none_att (s : RecordingSession) (flush : Bool)
    (hst : s.state = SessionState.Stopping) (hcur : s.currentSegment = none)
    (hatt : s.streamAttached = true) :
    step s (SourceInput.eos flush) =
      ⟨{ s with state := SessionState.Stopped }, [Event.streamDisconnected], none⟩ := by
  simp [step, hst, closeSegment, hcur, hatt]

/-- Completing an asynchronous stop when no stream ever attached. -/
theorem step_eos_none_noatt (s : RecordingSession) (flush : Bool)
    (hst : s.state = SessionState.Stopping) (hcur : s.currentSegment = none)
    (hatt : s.streamAttached = false) :
    step s (SourceInput.eos flush) =
      ⟨{ s with state := SessionState.Stopped }, [], none⟩ := by
  simp [step, hst, closeSegment, hcur, hatt]

theorem pathsOk_append (fmt : ContainerFormat) (evs new : List Event)
    (hold : ∀ pa, (Event.fileCreated pa ∈ evs ∨ Event.fileCompleted pa ∈ evs) →
      ∃ p, pa = p ++ extensionFor fmt)
    (hnew : ∀ pa, (Event.fileCreated pa ∈ new ∨ Event.fileCompleted pa ∈ new) →
      ∃ p, pa = p ++ extensionFor fmt) :
    ∀ pa, (Event.fileCreated pa ∈ evs ++ new ∨ Event.fileCompleted pa ∈ evs ++ new) →
      ∃ p, pa = p ++ extensionFor fmt := by
  intro pa hpa
  rcases hpa with hpa | hpa <;> rw [List.mem_append] at hpa
  · rcases hpa with hpa | hpa
    · exact hold pa (Or.inl hpa)
    · exact hnew pa (Or.inl hpa)
  · rcases hpa with hpa | hpa
    · exact hold pa (Or.inr hpa)
    · exact hnew pa (Or.inr hpa)

theorem runInv_step (s : RecordingSession) (evs : List Event) (h : RunInv s evs)
    (i : SourceInput) :
    RunInv (step s i).session (evs ++ (step s i).events) := by
  cases i with
  | startRecording uri =>
      by_cases hst : s.state = SessionState.Idle
      · simp only [step, if_pos hst]
        exact runInv_mild s evs h SessionState.WaitingForStream s.gaps
          (by simp [hst]) (fun hx => absurd hx (by decide))
          (fun hx => absurd hx (by decide)) (fun hx => absurd hx (by decide))
      · simp only [step, if_neg hst]
        simpa using h
  | stopRecording =>
      cases hst : s.state with
      | Idle =>
          simp only [step, hst]
          exact runInv_mild s evs h SessionState.Stopped s.gaps
            (by simp [hst, (h.idleClean hst).1])
            (fun _ => (h.idleClean hst).2)
            (fun hx => absurd hx (by decide)) (fun hx => absurd hx (by decide))
      | WaitingForStream =>
          simp only [step, hst]
          exact runInv_mild s evs h SessionState.Stopping s.gaps
            (by simp [hst]) (fun hx => absurd hx (by decide))
            (fun hx => absurd hx (by decide)) (fun hx => absurd hx (by decide))
      | Recording =>
          simp only [step, hst]
          exact runInv_mild s evs h SessionState.Stopping s.gaps
            (by simp [hst]) (fun hx => absurd hx (by decide))
            (fun hx => absurd hx (by decide)) (fun hx => absurd hx (by decide))
      | Stopping => simp only [step, hst]; simpa using h
      | Stopped => simp only [step, hst]; simpa using h
  | sourceConnected ts =>
      by_cases hst : s.state = SessionState.WaitingForStream
      · cases hatt : s.streamAttached with
        | true =>
            rw [step_connect_re s ts hst hatt]
            exact runInv_mild s evs h SessionState.Recording (s.gaps.recordReconnect ts)
              (by simp [hst]) (fun hx => absurd hx (by decide))
              (fun _ => hatt) (fun hx => absurd hx (by decide))
        | false =>
            have hcur : s.currentSegment = none := h.noStreamNoSeg hatt
            rw [step_connect_first s ts hst hatt]
            refine ⟨?_, ?_, ?_, ?_, ?_, ?_, ?_, ?_, ?_, ?_⟩
            · simpa using h.closedClosed
            · intro h' hh'
              simp only at hh'
              cases hh'
              rfl
            · intro hx; cases hx
            · intro hb; simp only at hb; exact Bool.noConfusion hb
            · intro _; rfl
            · intro hx; cases hx
            · rw [traceRun_append, h.trace]
              simp [traceStateOf, hst, hatt, hcur, traceRun, traceStep]
            · simpa using h.fmtClosed
            · intro h' hh'
              simp only at hh'
              cases hh'
              exact ⟨rfl, _, rfl⟩
            · refine pathsOk_append s.containerFormat evs _ h.evPaths ?_
              intro pa hpa
              rcases hpa with hpa | hpa <;>
                simp only [List.mem_cons, List.not_mem_nil, or_false] at hpa
              · rcases hpa with h1 | h1
                · exact Event.noConfusion h1
                · have h2 := Event.fileCreated.inj h1
                  subst h2
                  exact ⟨_, rfl⟩
              · rcases hpa with h1 | h1
                · exact Event.noConfusion h1
                · exact Event.noConfusion h1
      · have : step s (SourceInput.sourceConnected ts) = ⟨s, [], none⟩ := by
          cases hs : s.state with
          | WaitingForStream => exact absurd hs hst
          | Idle => simp [step, hs]
          | Recording => simp [step, hs]
          | Stopping => simp [step, hs]
          | Stopped => simp [step, hs]
        rw [this]
        simpa using h
  | sourceDisconnected ts =>
      cases hst : s.state with
      | Recording =>
          simp only [step, hst]
          exact runInv_mild s evs h SessionState.WaitingForStream
            (s.gaps.recordDisconnect ts)
            (by simp [hst]) (fun hx => absurd hx (by decide))
            (fun hx => absurd hx (by decide)) (fun hx => absurd hx (by decide))
      | Idle => simp only [step, hst]; simpa using h
      | WaitingForStream => simp only [step, hst]; simpa using h
      | Stopping => simp only [step, hst]; simpa using h
      | Stopped => simp only [step, hst]; simpa using h
  | dataUnit u =>
      by_cases hcond : (s.state = SessionState.Recording ∨
          (s.state = SessionState.Stopping ∧ s.streamAttached = true))
      · have hatt : s.streamAttached = true := by
          rcases hcond with hr | ⟨_, ha⟩
          · exact h.recAttached hr
          · exact ha
        have hnstop : s.state ≠ SessionState.Stopped := by
          rcases hcond with hr | ⟨hr, _⟩ <;> rw [hr] <;> decide
        have hnidle : s.state ≠ SessionState.Idle := by
          rcases hcond with hr | ⟨hr, _⟩ <;> rw [hr] <;> decide
        have hdone : decide (s.state = SessionState.Stopped) = false := by
          simpa using hnstop
        cases hcur : s.currentSegment with
        | none =>
            rw [step_data_open s u hcond hcur]
            refine ⟨?_, ?_, ?_, ?_, ?_, ?_, ?_, ?_, ?_, ?_⟩
            · simpa using h.closedClosed
            · intro h' hh'
              simp only at hh'
              cases hh'
              rfl
            · intro hx; exact absurd hx hnstop
            · intro hb; simp only at hb; rw [hatt] at hb; exact Bool.noConfusion hb
            · intro _; exact hatt
            · intro hx; exact absurd hx hnidle
            · rw [traceRun_append, h.trace]
              simp [traceStateOf, hatt, hcur, hdone, traceRun, traceStep]
            · simpa using h.fmtClosed
            · intro h' hh'
              simp only at hh'
              cases hh'
              exact ⟨rfl, _, rfl⟩
            · refine pathsOk_append s.containerFormat evs _ h.evPaths ?_
              intro pa hpa
              rcases hpa with hpa | hpa <;>
                simp only [List.mem_cons, List.not_mem_nil, or_false] at hpa
              · have h2 := Event.fileCreated.inj hpa
                subst h2
                exact ⟨_, rfl⟩
              · exact Event.noConfusion hpa
        | some seg =>
            by_cases hrot : (shouldRotate s.maxSegmentDuration s.maxSegmentBytes seg
                u.presentationTimestamp && u.isKeyBoundary) = true
            · rw [step_data_rotate_general s seg u hcond hcur hrot]
              refine ⟨?_, ?_, ?_, ?_, ?_, ?_, ?_, ?_, ?_, ?_⟩
              · intro h' hh'
                simp only [List.mem_append, List.mem_singleton] at hh'
                rcases hh' with hold | hnew
                · exact h.closedClosed h' hold
                · rw [hnew]
              · intro h' hh'
                simp only at hh'
                cases hh'
                rfl
              · intro hx; exact absurd hx hnstop
              · intro hb; simp only at hb; rw [hatt] at hb; exact Bool.noConfusion hb
              · intro _; exact hatt
              · intro hx; exact absurd hx hnidle
              · rw [traceRun_append, h.trace]
                simp [traceStateOf, hatt, hcur, hdone, traceRun, traceStep]
              · intro h' hh'
                simp only [List.mem_append, List.mem_singleton] at hh'
                rcases hh' with hold | hnew
                · simpa using h.fmtClosed h' hold
                · rw [hnew]
                  simpa using h.fmtCur seg hcur
              · intro h' hh'
                simp only at hh'
                cases hh'
                exact ⟨rfl, _, rfl⟩
              · refine pathsOk_append s.containerFormat evs _ h.evPaths ?_
                intro pa hpa
                rcases hpa with hpa | hpa <;>
                  simp only [List.mem_cons, List.not_mem_nil, or_false] at hpa
                · rcases hpa with h1 | h1
                  · exact Event.noConfusion h1
                  · have h2 := Event.fileCreated.inj h1
                    subst h2
                    exact ⟨_, rfl⟩
                · rcases hpa with h1 | h1
                  · have h2 := Event.fileCompleted.inj h1
                    subst h2
                    exact (h.fmtCur seg hcur).2
                  · exact Event.noConfusion h1
            · have hrot' : (shouldRotate s.maxSegmentDuration s.maxSegmentBytes seg
                  u.presentationTimestamp && u.isKeyBoundary) = false := by
                simpa using hrot
              rw [step_data_append_general s seg u hcond hcur hrot']
              exact runInv_appendOne s evs h seg hcur u.payloadSize u.presentationTimestamp
      · simp only [step, if_neg hcond]
        simpa using h
  | eos flushError =>
      by_cases hst : s.state = SessionState.Stopping
      · cases hcur : s.currentSegment with
        | some seg =>
            have hatt : s.streamAttached = true := by
              cases hb : s.streamAttached with
              | false => rw [h.noStreamNoSeg hb] at hcur; exact Option.noConfusion hcur
              | true => rfl
            rw [step_eos_close s seg flushError hst hcur hatt]
            refine ⟨?_, ?_, ?_, ?_, ?_, ?_, ?_, ?_, ?_, ?_⟩
            · intro h' hh'
              simp only [List.mem_append, List.mem_singleton] at hh'
              rcases hh' with hold | hnew
              · exact h.closedClosed h' hold
              · rw [hnew]
            · intro h' hh'
              simp only at hh'
              exact Option.noConfusion hh'
            · intro _; rfl
            · intro _; rfl
            · intro hx; cases hx
            · intro hx; cases hx
            · rw [traceRun_append, h.trace]
              simp [traceStateOf, hst, hatt, hcur, traceRun, traceStep]
            · intro h' hh'
              simp only [List.mem_append, List.mem_singleton] at hh'
              rcases hh' with hold | hnew
              · simpa using h.fmtClosed h' hold
              · rw [hnew]
                simpa using h.fmtCur seg hcur
            · intro h' hh'
              simp only at hh'
              exact Option.noConfusion hh'
            · refine pathsOk_append s.containerFormat evs _ h.evPaths ?_
              intro pa hpa
              rcases hpa with hpa | hpa <;>
                simp only [List.mem_cons, List.not_mem_nil, or_false] at hpa
              · rcases hpa with h1 | h1
                · exact Event.noConfusion h1
                · exact Event.noConfusion h1
              · rcases hpa with h1 | h1
                · have h2 := Event.fileCompleted.inj h1
                  subst h2
                  exact (h.fmtCur seg hcur).2
                · exact Event.noConfusion h1
        | none =>
            cases hatt : s.streamAttached with
            | true =>
                rw [step_eos_none_att s flushError hst hcur hatt]
                refine ⟨?_, ?_, ?_, ?_, ?_, ?_, ?_, ?_, ?_, ?_⟩
                · simpa using h.closedClosed
                · intro h' hh'
                  simp only at hh'
                  rw [hcur] at hh'
                  exact Option.noConfusion hh'
                · intro _; exact hcur
                · intro _; exact hcur
                · intro hx; cases hx
                · intro hx; cases hx
                · rw [traceRun_append, h.trace]
                  simp [traceStateOf, hst, hatt, hcur, traceRun, traceStep]
                · simpa using h.fmtClosed
                · intro h' hh'
                  simp only at hh'
                  rw [hcur] at hh'
                  exact Option.noConfusion hh'
                · refine pathsOk_append s.containerFormat evs _ h.evPaths ?_
                  intro pa hpa
                  rcases hpa with hpa | hpa <;>
                    simp only [List.mem_cons, List.not_mem_nil, or_false] at hpa
                  · exact Event.noConfusion hpa
                  · exact Event.noConfusion hpa
            | false =>
                rw [step_eos_none_noatt s flushError hst hcur hatt]
                exact runInv_mild s evs h SessionState.Stopped s.gaps
                  (by simp [hatt]) (fun _ => hcur)
                  (fun hx => absurd hx (by decide)) (fun hx => absurd hx (by decide))
      · have : step s (SourceInput.eos flushError) = ⟨s, [], none⟩ := by
          cases hs : s.state with
          | Stopping => exact absurd hs hst
          | Idle => simp [step, hs]
          | Recording => simp [step, hs]
          | WaitingForStream => simp [step, hs]
          | Stopped => simp [step, hs]
        rw [this]
        simpa using h

/-- The invariant is preserved along any run. -/
theorem runInv_run :
    ∀ (l : List SourceInput) (s : RecordingSession) (evs : List Event),
    RunInv s evs → RunInv (execS s l) (evs ++ traceE s l) := by
  intro l
  induction l with
  | nil => intro s evs h; simpa [execS, traceE] using h
  | cons i is ih =>
      intro s evs h
      have h1 := runInv_step s evs h i
      have h2 := ih (step s i).session (evs ++ (step s i).events) h1
      simpa [execS, traceE, List.append_assoc] using h2

/-- Every session run from a fresh engine satisfies the invariant. -/
theorem runInv_exec (fmt : ContainerFormat) (dir : String) (mD mB : Option Nat)
    (l : List SourceInput) :
    RunInv (execS (initialSession fmt dir mD mB) l)
      (traceE (initialSession fmt dir mD mB) l) := by
  have := runInv_run l (initialSession fmt dir mD mB) [] (runInv_initial fmt dir mD mB)
  simpa using this

/-- Counting along the ordering automaton: created/completed counts differ by
the open-file flag; connected and disconnected are each emitted at most once,
tracked by the `connected` and `done` flags. -/
theorem traceRun_counts :
    ∀ (l : List Event) (t t' : TraceState),
    traceRun (some t) l = some t' →
    (countCreated l + (if t.fileOpen then 1 else 0) =
      countCompleted l + (if t'.fileOpen then 1 else 0)) ∧
    (countConnected l + (if t.connected then 1 else 0) = (if t'.connected then 1 else 0)) ∧
    (countDisconnected l + (if t.done then 1 else 0) = (if t'.done then 1 else 0)) := by
  intro l
  induction l with
  | nil =>
      intro t t' h
      simp only [traceRun] at h
      cases h
      simp [countCreated, countCompleted, countConnected, countDisconnected]
  | cons e r ih =>
      intro t t' h
      simp only [traceRun, Option.some_bind] at h
      cases htep : traceStep t e with
      | none =>
          rw [htep, traceRun_none] at h
          exact Option.noConfusion h
      | some t1 =>
          rw [htep] at h
          have hr := ih t1 t' h
          obtain ⟨c, f, d⟩ := t
          cases d with
          | true => simp [traceStep] at htep
          | false =>
              cases e <;> cases c <;> cases f <;>
                simp only [traceStep, Bool.false_eq_true, if_false, if_true,
                  Bool.true_or, Bool.false_or, Bool.or_false, Bool.or_true,
                  Bool.and_self, Bool.true_and, Bool.false_and, Bool.not_true,
                  Bool.not_false, Bool.and_true, Bool.and_false] at htep <;>
                first
                | exact Option.noConfusion htep
                | (cases htep
                   rcases hr with ⟨h1, h2, h3⟩
                   refine ⟨?_, ?_, ?_⟩ <;>
                     simp [countCreated, countCompleted, countConnected,
                       countDisconnected, List.countP_cons] at h1 h2 h3 ⊢ <;>
                     omega)

/-- A trace segment accepted from a `done` automaton state is empty:
nothing is ever emitted after stream-disconnected. -/
theorem traceRun_done :
    ∀ (l : List Event) (t t' : TraceState), t.done = true →
    traceRun (some t) l = some t' → l = [] := by
  intro l
  cases l with
  | nil => intro t t' _ _; rfl
  | cons e r =>
      intro t t' hd h
      simp only [traceRun, Option.some_bind] at h
      rw [show traceStep t e = none by simp [traceStep, hd], traceRun_none] at h
      exact Option.noConfusion h

/-- If the automaton goes from unconnected to connected over a trace segment,
that segment contains a stream-connected event. -/
theorem traceRun_connected_mem :
    ∀ (l : List Event) (t t' : TraceState), t.connected = false →
    traceRun (some t) l = some t' → t'.connected = true →
    Event.streamConnected ∈ l := by
  intro l
  induction l with
  | nil =>
      intro t t' hc h hc'
      simp only [traceRun] at h
      cases h
      rw [hc] at hc'
      exact Bool.noConfusion hc'
  | cons e r ih =>
      intro t t' hc h hc'
      simp only [traceRun, Option.some_bind] at h
      cases htep : traceStep t e with
      | none =>
          rw [htep, traceRun_none] at h
          exact Option.noConfusion h
      | some t1 =>
          rw [htep] at h
          obtain ⟨c, f, d⟩ := t
          simp only at hc
          subst hc
          cases d with
          | true => simp [traceStep] at htep
          | false =>
              cases e with
              | streamConnected => exact List.mem_cons_self _ _
              | streamDisconnected => simp [traceStep] at htep
              | fileCreated pa => simp [traceStep] at htep
              | fileCompleted pa => simp [traceStep] at htep

/-- The automaton only accepts file-created when the stream has connected. -/
theorem traceStep_created_connected (t t2 : TraceState) (pa : String)
    (h : traceStep t (Event.fileCreated pa) = some t2) : t.connected = true := by
  obtain ⟨c, f, d⟩ := t
  cases d with
  | true => simp [traceStep] at h
  | false =>
      cases c with
      | false => simp [traceStep] at h
      | true => rfl

/-- Accepting stream-disconnected puts the automaton in the `done` state. -/
theorem traceStep_disc_done (t t2 : TraceState)
    (h : traceStep t Event.streamDisconnected = some t2) : t2.done = true := by
  obtain ⟨c, f, d⟩ := t
  cases d with
  | true => simp [traceStep] at h
  | false =>
      cases c <;> cases f <;> simp [traceStep] at h
      cases h
      rfl

/-- Strict alternation checker for file events: `b` records whether a file is
currently open; created is only allowed when no file is open and completed
only when one is; other events are ignored.  Returns the final open flag. -/
def fileAltRun (b : Bool) : List Event → Option Bool
  | [] => some b
  | Event.fileCreated _ :: r => if b then none else fileAltRun true r
  | Event.fileCompleted _ :: r => if b then fileAltRun false r else none
  | _ :: r => fileAltRun b r

/-- Traces accepted by the ordering automaton strictly alternate their file
events, tracking the automaton's open-file flag. -/
theorem traceRun_fileAlt :
    ∀ (l : List Event) (t t' : TraceState),
    traceRun (some t) l = some t' →
    fileAltRun t.fileOpen l = some t'.fileOpen := by
  intro l
  induction l with
  | nil =>
      intro t t' h
      simp only [traceRun] at h
      cases h
      rfl
  | cons e r ih =>
      intro t t' h
      simp only [traceRun, Option.some_bind] at h
      cases htep : traceStep t e with
      | none =>
          rw [htep, traceRun_none] at h
          exact Option.noConfusion h
      | some t1 =>
          rw [htep] at h
          have hr := ih t1 t' h
          obtain ⟨c, f, d⟩ := t
          cases d with
          | true => simp [traceStep] at htep
          | false =>
              cases e <;> cases c <;> cases f <;>
                simp only [traceStep, Bool.false_eq_true, if_false, if_true,
                  Bool.true_or, Bool.false_or, Bool.or_false, Bool.or_true,
                  Bool.true_and, Bool.false_and, Bool.not_true,
                  Bool.not_false, Bool.and_true, Bool.and_false] at htep <;>
                first
                | exact Option.noConfusion htep
                | (cases htep
                   simpa [fileAltRun] using hr)

/-- **C1**: over any serialized run of a recording session, the number of
file-created events equals the number of file-completed events plus one
exactly while a file is still open — in particular they are equal whenever
the session has stopped — and the file events strictly alternate: each
file-created is matched by a file-completed before the next file-created. -/
theorem created_completed_balance (fmt : ContainerFormat) (dir : String)
    (mD mB : Option Nat) (inputs : List SourceInput) :
    countCreated (traceE (initialSession fmt dir mD mB) inputs) =
      countCompleted (traceE (initialSession fmt dir mD mB) inputs) +
        (if (execS (initialSession fmt dir mD mB) inputs).currentSegment.isSome
         then 1 else 0) ∧
    ((execS (initialSession fmt dir mD mB) inputs).state = SessionState.Stopped →
      countCreated (traceE (initialSession fmt dir mD mB) inputs) =
        countCompleted (traceE (initialSession fmt dir mD mB) inputs)) ∧
    fileAltRun false (traceE (initialSession fmt dir mD mB) inputs) =
      some (execS (initialSession fmt dir mD mB) inputs).currentSegment.isSome := by
  have h := runInv_exec fmt dir mD mB inputs
  have hc := traceRun_counts _ _ _ h.trace
  have h1 : countCreated (traceE (initialSession fmt dir mD mB) inputs) =
      countCompleted (traceE (initialSession fmt dir mD mB) inputs) +
        (if (execS (initialSession fmt dir mD mB) inputs).currentSegment.isSome
         then 1 else 0) := by
    have := hc.1
    simpa [traceStart, traceStateOf] using this
  refine ⟨h1, ?_, ?_⟩
  · intro hstop
    rw [h1, h.stoppedClosed hstop]
    simp
  · have := traceRun_fileAlt _ _ _ h.trace
    simpa [traceStart, traceStateOf] using this

/-- Witness for `created_completed_balance`: the 13-unit split run emits three
created and three completed events and ends stopped with no open file. -/
theorem created_completed_balance_witness :
    (execS (initialSession ContainerFormat.mp4 "/tmp" (some 5) none)
        (continuousScenario 1 13)).state = SessionState.Stopped ∧
    countCreated (traceE (initialSession ContainerFormat.mp4 "/tmp" (some 5) none)
        (continuousScenario 1 13)) =
      countCompleted (traceE (initialSession ContainerFormat.mp4 "/tmp" (some 5) none)
        (continuousScenario 1 13)) :=
  ⟨by decide,
   (created_completed_balance ContainerFormat.mp4 "/tmp" (some 5) none
     (continuousScenario 1 13)).2.1 (by decide)⟩

/-- **C5**: every session run's event trace obeys the §6 ordering contract —
the trace is accepted by the ordering automaton (so each file-created precedes
its matching file-completed, in strict alternation); a stream-connected occurs
before the first file-created; nothing at all is emitted after
stream-disconnected (so it follows the final file-completed); and
stream-disconnected is emitted exactly once when the session streamed and has
stopped, and never more than that. -/
theorem event_ordering (fmt : ContainerFormat) (dir : String)
    (mD mB : Option Nat) (inputs : List SourceInput) :
    traceRun (some traceStart) (traceE (initialSession fmt dir mD mB) inputs) =
      some (traceStateOf (execS (initialSession fmt dir mD mB) inputs)) ∧
    (∀ l1 pa l2, traceE (initialSession fmt dir mD mB) inputs =
        l1 ++ Event.fileCreated pa :: l2 → Event.streamConnected ∈ l1) ∧
    (∀ l1 l2, traceE (initialSession fmt dir mD mB) inputs =
        l1 ++ Event.streamDisconnected :: l2 → l2 = []) ∧
    countDisconnected (traceE (initialSession fmt dir mD mB) inputs) =
      (if (execS (initialSession fmt dir mD mB) inputs).state = SessionState.Stopped ∧
          (execS (initialSession fmt dir mD mB) inputs).streamAttached = true
       then 1 else 0) := by
  have h := runInv_exec fmt dir mD mB inputs
  refine ⟨h.trace, ?_, ?_, ?_⟩
  · intro l1 pa l2 heq
    have ht := h.trace
    rw [heq, traceRun_append] at ht
    cases hpre : traceRun (some traceStart) l1 with
    | none => rw [hpre, traceRun_none] at ht; exact Option.noConfusion ht
    | some t1 =>
        rw [hpre] at ht
        simp only [traceRun, Option.some_bind] at ht
        cases htep : traceStep t1 (Event.fileCreated pa) with
        | none => rw [htep, traceRun_none] at ht; exact Option.noConfusion ht
        | some t2 =>
            exact traceRun_connected_mem l1 traceStart t1 rfl hpre
              (traceStep_created_connected t1 t2 pa htep)
  · intro l1 l2 heq
    have ht := h.trace
    rw [heq, traceRun_append] at ht
    cases hpre : traceRun (some traceStart) l1 with
    | none => rw [hpre, traceRun_none] at ht; exact Option.noConfusion ht
    | some t1 =>
        rw [hpre] at ht
        simp only [traceRun, Option.some_bind] at ht
        cases htep : traceStep t1 Event.streamDisconnected with
        | none => rw [htep, traceRun_none] at ht; exact Option.noConfusion ht
        | some t2 =>
            rw [htep] at ht
            exact traceRun_done l2 t2 _ (traceStep_disc_done t1 t2 htep) ht
  · have hc := (traceRun_counts _ _ _ h.trace).2.2
    simp only [traceStart, traceStateOf] at hc
    by_cases hstop : (execS (initialSession fmt dir mD mB) inputs).state =
        SessionState.Stopped
    · by_cases hatt : (execS (initialSession fmt dir mD mB) inputs).streamAttached = true
      · simp [hstop, hatt] at hc ⊢
        omega
      · simp only [Bool.not_eq_true] at hatt
        simp [hstop, hatt] at hc ⊢
        omega
    · simp [hstop] at hc ⊢
      omega

/-- Witness for `event_ordering`: the 13-unit split run's full trace, accepted
by the automaton ending connected/closed/done, with one stream-disconnected. -/
theorem event_ordering_witness :
    traceRun (some traceStart) (traceE (initialSession ContainerFormat.mp4 "/tmp"
        (some 5) none) (continuousScenario 1 13)) =
      some (traceStateOf (execS (initialSession ContainerFormat.mp4 "/tmp"
        (some 5) none) (continuousScenario 1 13))) ∧
    countDisconnected (traceE (initialSession ContainerFormat.mp4 "/tmp"
        (some 5) none) (continuousScenario 1 13)) = 1 :=
  ⟨(event_ordering ContainerFormat.mp4 "/tmp" (some 5) none (continuousScenario 1 13)).1,
   by
    have := (event_ordering ContainerFormat.mp4 "/tmp" (some 5) none
      (continuousScenario 1 13)).2.2.2
    rw [this]
    decide⟩

/-- **C6**: `stopRecording()` is idempotent: invoked while the session is
already Stopped it is a no-op — it emits no events at all (in particular no
extra file-completed or stream-disconnected), reports no error, and leaves
the session state unchanged. -/
theorem stopRecording_idempotent (s : RecordingSession)
    (h : s.state = SessionState.Stopped) :
    step s SourceInput.stopRecording = ⟨s, [], none⟩ := by
  simp [step, h]

/-- Witness for `stopRecording_idempotent`: a second stop right after the
session reached Stopped changes nothing. -/
theorem stopRecording_idempotent_witness :
    (execS (initialSession ContainerFormat.mp4 "/tmp" none none)
      [SourceInput.stopRecording]).state = SessionState.Stopped ∧
    step (execS (initialSession ContainerFormat.mp4 "/tmp" none none)
      [SourceInput.stopRecording]) SourceInput.stopRecording =
      ⟨execS (initialSession ContainerFormat.mp4 "/tmp" none none)
        [SourceInput.stopRecording], [], none⟩ :=
  ⟨rfl, stopRecording_idempotent _ rfl⟩

/-- **C7**: `startRecording(streamUri)` succeeds — moving Idle to
WaitingForStream with no events and no error — exactly when the session is
Idle; in every other state it fails synchronously with `AlreadyRecording`
and the session is unchanged. -/
theorem startRecording_contract (s : RecordingSession) (uri : String) :
    (s.state = SessionState.Idle →
      step s (SourceInput.startRecording uri) =
        ⟨{ s with state := SessionState.WaitingForStream }, [], none⟩) ∧
    (s.state ≠ SessionState.Idle →
      step s (SourceInput.startRecording uri) =
        ⟨s, [], some RecorderError.AlreadyRecording⟩) := by
  constructor
  · intro h
    simp [step, h]
  · intro h
    simp [step, h]

/-- Witness for `startRecording_contract`: start succeeds on a fresh session
and fails with `AlreadyRecording` on a stopped one. -/
theorem startRecording_contract_witness :
    step (initialSession ContainerFormat.mp4 "/tmp" none none)
        (SourceInput.startRecording "srt://127.0.0.1:8888") =
      ⟨{ initialSession ContainerFormat.mp4 "/tmp" none none with
          state := SessionState.WaitingForStream }, [], none⟩ ∧
    step (execS (initialSession ContainerFormat.mp4 "/tmp" none none)
        [SourceInput.stopRecording])
        (SourceInput.startRecording "srt://127.0.0.1:8888") =
      ⟨execS (initialSession ContainerFormat.mp4 "/tmp" none none)
        [SourceInput.stopRecording], [], some RecorderError.AlreadyRecording⟩ :=
  ⟨(startRecording_contract _ _).1 rfl,
   (startRecording_contract _ _).2 (by decide)⟩

/-- **C8**: at most one segment handle is open at any point of any run, and
`closeSegment` always releases the handle — even under a flush error, which
is surfaced as `IoError` while the handle is still released. -/
theorem one_open_segment :
    (∀ (fmt : ContainerFormat) (dir : String) (mD mB : Option Nat)
        (inputs : List SourceInput),
      openHandleCount (execS (initialSession fmt dir mD mB) inputs) ≤ 1) ∧
    (∀ (s : RecordingSession) (flush : Bool),
      (closeSegment s flush).1.currentSegment = none ∧
      (∀ seg, s.currentSegment = some seg → flush = true →
        (closeSegment s flush).2.2 = some RecorderError.IoError)) := by
  constructor
  · intro fmt dir mD mB inputs
    have h := runInv_exec fmt dir mD mB inputs
    have hz : ((execS (initialSession fmt dir mD mB) inputs).closedSegments.countP
        (·.isOpen)) = 0 := by
      rw [List.countP_eq_zero]
      intro a ha
      simp [h.closedClosed a ha]
    rw [openHandleCount, hz]
    cases hcur : (execS (initialSession fmt dir mD mB) inputs).currentSegment with
    | none => simp
    | some seg =>
        simp only [Nat.zero_add]
        split <;> omega
  · intro s flush
    constructor
    · cases hcur : s.currentSegment <;> simp [closeSegment, hcur]
    · intro seg hseg hflush
      simp [closeSegment, hseg, hflush]

/-- Witness for `one_open_segment`: concrete run and a concrete failing
flush on an open segment. -/
theorem one_open_segment_witness :
    openHandleCount (execS (initialSession ContainerFormat.mp4 "/tmp" (some 5) none)
      (continuousScenario 1 13)) ≤ 1 ∧
    (closeSegment (execS (initialSession ContainerFormat.mp4 "/tmp" none none)
      [SourceInput.startRecording "u", SourceInput.sourceConnected 0]) true).1.currentSegment
        = none ∧
    (closeSegment (execS (initialSession ContainerFormat.mp4 "/tmp" none none)
      [SourceInput.startRecording "u", SourceInput.sourceConnected 0]) true).2.2 =
        some RecorderError.IoError :=
  ⟨one_open_segment.1 ContainerFormat.mp4 "/tmp" (some 5) none (continuousScenario 1 13),
   (one_open_segment.2 _ true).1,
   (one_open_segment.2 _ true).2
     (freshSegment (makeFilePath "/tmp" 0 ContainerFormat.mp4) 0 ContainerFormat.mp4)
     (by decide) rfl⟩

/-- No input ever changes the configured container format mid-session. -/
theorem step_containerFormat (s : RecordingSession) (i : SourceInput) :
    (step s i).session.containerFormat = s.containerFormat := by
  cases i <;> simp only [step] <;>
    repeat' first
      | rfl
      | split
      | simp only [openNewSegment, closeSegment]

theorem execS_containerFormat :
    ∀ (l : List SourceInput) (s : RecordingSession),
    (execS s l).containerFormat = s.containerFormat := by
  intro l
  induction l with
  | nil => intro s; rfl
  | cons i is ih =>
      intro s
      rw [execS, ih, step_containerFormat]

/-- **C9**: every path carried by a file-completed (or file-created) event in
a session run ends with the extension of the configured container format, and
every finalized file was muxed in that same format, whose container MIME type
is exactly what the test harness expects for that extension
(`video/quicktime` for `.mp4`, `video/mpegts` for `.ts`). -/
theorem extension_matches_container (fmt : ContainerFormat) (dir : String)
    (mD mB : Option Nat) (inputs : List SourceInput) :
    (∀ pa, (Event.fileCreated pa ∈ traceE (initialSession fmt dir mD mB) inputs ∨
        Event.fileCompleted pa ∈ traceE (initialSession fmt dir mD mB) inputs) →
      ∃ p, pa = p ++ extensionFor fmt) ∧
    (∀ h ∈ (execS (initialSession fmt dir mD mB) inputs).closedSegments,
      h.format = fmt ∧ (∃ p, h.filePath = p ++ extensionFor h.format) ∧
      mimeForExtension (extensionFor h.format) = some (mimeTypeFor h.format)) := by
  have hinv := runInv_exec fmt dir mD mB inputs
  have hfmt : (execS (initialSession fmt dir mD mB) inputs).containerFormat = fmt :=
    execS_containerFormat inputs (initialSession fmt dir mD mB)
  constructor
  · intro pa hpa
    have := hinv.evPaths pa hpa
    rwa [hfmt] at this
  · intro h hh
    have h1 := hinv.fmtClosed h hh
    rw [hfmt] at h1
    refine ⟨h1.1, ?_, ?_⟩
    · rw [h1.1]
      exact h1.2
    · cases fmtc : h.format <;> simp [mimeForExtension, extensionFor, mimeTypeFor]

/-- Witness for `extension_matches_container`: in the MPEG-TS run, the
completed path carries `.ts` and the finalized file is `video/mpegts`. -/
theorem extension_matches_container_witness :
    (∃ p, makeFilePath "/tmp" 0 ContainerFormat.ts =
      p ++ extensionFor ContainerFormat.ts) ∧
    (closedPartial ContainerFormat.ts "/tmp" 1 0 0 5).format = ContainerFormat.ts ∧
    mimeForExtension
        (extensionFor (closedPartial ContainerFormat.ts "/tmp" 1 0 0 5).format) =
      some (mimeTypeFor (closedPartial ContainerFormat.ts "/tmp" 1 0 0 5).format) := by
  have h2 := (extension_matches_container ContainerFormat.ts "/tmp" (some 5) none
    (continuousScenario 1 13)).2 (closedPartial ContainerFormat.ts "/tmp" 1 0 0 5)
    (by decide)
  exact ⟨(extension_matches_container ContainerFormat.ts "/tmp" (some 5) none
    (continuousScenario 1 13)).1 (makeFilePath "/tmp" 0 ContainerFormat.ts)
    (Or.inr (by decide)), h2.1, h2.2.2⟩

/-- **C4**: a disconnect at time `t` and reconnect at `t + G` while a segment
is open emit no events at all (in particular no file-completed at the
disconnect), keep the very same segment handle open across the gap, and
record one gap interval of duration exactly `G` — the timestamp discontinuity
preserved inside the file; provided no rotation threshold is crossed, the
next data unit is still appended to that same file. -/
theorem disconnect_gap_preserves_segment (s : RecordingSession) (seg : SegmentHandle)
    (t G : Nat) (u : DataUnit)
    (hst : s.state = SessionState.Recording)
    (hseg : s.currentSegment = some seg)
    (hatt : s.streamAttached = true)
    (hnr : shouldRotate s.maxSegmentDuration s.maxSegmentBytes seg
      u.presentationTimestamp = false) :
    (step s (SourceInput.sourceDisconnected t)).events = [] ∧
    (step s (SourceInput.sourceDisconnected t)).session.currentSegment = some seg ∧
    (step (step s (SourceInput.sourceDisconnected t)).session
        (SourceInput.sourceConnected (t + G))).events = [] ∧
    (step (step s (SourceInput.sourceDisconnected t)).session
        (SourceInput.sourceConnected (t + G))).session.currentSegment = some seg ∧
    (step (step s (SourceInput.sourceDisconnected t)).session
        (SourceInput.sourceConnected (t + G))).session.gaps.currentFileGaps =
      s.gaps.currentFileGaps ++ [⟨t, t + G⟩] ∧
    GapInterval.duration ⟨t, t + G⟩ = G ∧
    (step (step (step s (SourceInput.sourceDisconnected t)).session
        (SourceInput.sourceConnected (t + G))).session
        (SourceInput.dataUnit u)).events = [] ∧
    ∃ seg', (step (step (step s (SourceInput.sourceDisconnected t)).session
        (SourceInput.sourceConnected (t + G))).session
          (SourceInput.dataUnit u)).session.currentSegment = some seg' ∧
      seg'.filePath = seg.filePath ∧ seg'.isOpen = seg.isOpen := by
  have e1 : step s (SourceInput.sourceDisconnected t) =
      ⟨{ s with
           state := SessionState.WaitingForStream
           gaps := s.gaps.recordDisconnect t }, [], none⟩ := by
    simp [step, hst]
  have e2 : step { s with
        state := SessionState.WaitingForStream
        gaps := s.gaps.recordDisconnect t } (SourceInput.sourceConnected (t + G)) =
      ⟨{ s with
           state := SessionState.Recording
           gaps := ⟨s.gaps.currentFileGaps ++ [⟨t, t + G⟩], none⟩ }, [], none⟩ := by
    simp [step, hatt, GapTracker.recordReconnect, GapTracker.recordDisconnect]
  have e3 : step { s with
        state := SessionState.Recording
        gaps := (⟨s.gaps.currentFileGaps ++ [⟨t, t + G⟩], none⟩ : GapTracker) }
        (SourceInput.dataUnit u) =
      ⟨{ s with
           state := SessionState.Recording
           gaps := ⟨s.gaps.currentFileGaps ++ [⟨t, t + G⟩], none⟩
           currentSegment := some (appendOne seg u.payloadSize u.presentationTimestamp) },
       [], none⟩ := by
    have := step_data_append_general
      { s with
          state := SessionState.Recording
          gaps := (⟨s.gaps.currentFileGaps ++ [⟨t, t + G⟩], none⟩ : GapTracker) }
      seg u (Or.inl rfl) (by simpa using hseg) (by simp [hnr])
    simpa using this
  have h2 : (step s (SourceInput.sourceDisconnected t)).session =
      { s with
          state := SessionState.WaitingForStream
          gaps := s.gaps.recordDisconnect t } := by rw [e1]
  have h3 : (step (step s (SourceInput.sourceDisconnected t)).session
      (SourceInput.sourceConnected (t + G))).session =
      { s with
          state := SessionState.Recording
          gaps := ⟨s.gaps.currentFileGaps ++ [⟨t, t + G⟩], none⟩ } := by
    rw [h2, e2]
  refine ⟨?_, ?_, ?_, ?_, ?_, ?_, ?_, ?_⟩
  · rw [e1]
  · rw [h2]
    exact hseg
  · rw [h2, e2]
  · rw [h3]
    exact hseg
  · rw [h3]
  · simp [GapInterval.duration]
  · rw [h3, e3]
  · exact ⟨appendOne seg u.payloadSize u.presentationTimestamp,
      by rw [h3, e3], rfl, rfl⟩

/-- Concrete session for the disconnect witness: one unit recorded into the
first file at stream time 0, rotation limit far away. -/
def c4Session : RecordingSession :=
  execS (initialSession ContainerFormat.mp4 "/tmp" (some 100) none)
    [SourceInput.startRecording "srt://127.0.0.1:8888", SourceInput.sourceConnected 0,
     SourceInput.dataUnit ⟨1, 0, true⟩]

/-- Witness for `disconnect_gap_preserves_segment`: a 5-unit gap at time 7. -/
theorem disconnect_gap_preserves_segment_witness :
    GapInterval.duration ⟨7, 7 + 5⟩ = 5 ∧
    (step c4Session (SourceInput.sourceDisconnected 7)).events = [] ∧
    (step (step c4Session (SourceInput.sourceDisconnected 7)).session
        (SourceInput.sourceConnected (7 + 5))).session.currentSegment =
      some (appendOne (freshSegment (makeFilePath "/tmp" 0 ContainerFormat.mp4) 0
        ContainerFormat.mp4) 1 0) := by
  have h := disconnect_gap_preserves_segment c4Session
    (appendOne (freshSegment (makeFilePath "/tmp" 0 ContainerFormat.mp4) 0
      ContainerFormat.mp4) 1 0) 7 5 ⟨1, 12, true⟩
    (by decide) (by decide) (by decide) (by decide)
  exact ⟨h.2.2.2.2.2.1, h.1, h.2.2.2.1⟩

/-- stream-disconnected is only accepted by the automaton when no file is
open: all created files have been completed by then. -/
theorem traceStep_disc_fileOpen (t t2 : TraceState)
    (h : traceStep t Event.streamDisconnected = some t2) : t.fileOpen = false := by
  obtain ⟨c, f, d⟩ := t
  cases d with
  | true => simp [traceStep] at h
  | false =>
      cases c <;> cases f <;> simp [traceStep] at h
      rfl

/-- Inputs of the asynchronous-stop scenario before the stop request:
rotation limit two units, so the third unit has already rotated once. -/
def preStop : List SourceInput :=
  [SourceInput.startRecording "srt://127.0.0.1:8888", SourceInput.sourceConnected 0,
   SourceInput.dataUnit ⟨1, 0, true⟩, SourceInput.dataUnit ⟨1, 1, true⟩,
   SourceInput.dataUnit ⟨1, 2, true⟩]

/-- Inputs drained after the stop request: one in-flight unit that still
triggers a rotation, then the writer's flush completion. -/
def postStop : List SourceInput :=
  [SourceInput.dataUnit ⟨1, 4, true⟩, SourceInput.eos false]

/-- **C10**: stopping is asynchronous — after a `stopRecording` request
mid-stream, in-flight data may still emit further file-created events before
the session finishes stopping (the concrete drain below does), yet in every
run each file-created has received its matching file-completed by the time
stream-disconnected fires: the prefix before stream-disconnected always has
equal created and completed counts. -/
theorem stop_is_asynchronous :
    (∃ pa, Event.fileCreated pa ∈
      traceE (execS (initialSession ContainerFormat.mp4 "/tmp" (some 2) none)
        (preStop ++ [SourceInput.stopRecording])) postStop) ∧
    (∀ (fmt : ContainerFormat) (dir : String) (mD mB : Option Nat)
        (inputs : List SourceInput) (l1 l2 : List Event),
      traceE (initialSession fmt dir mD mB) inputs =
        l1 ++ Event.streamDisconnected :: l2 →
      countCreated l1 = countCompleted l1) := by
  constructor
  · exact ⟨makeFilePath "/tmp" 2 ContainerFormat.mp4, by decide⟩
  · intro fmt dir mD mB inputs l1 l2 heq
    have h := runInv_exec fmt dir mD mB inputs
    have ht := h.trace
    rw [heq, traceRun_append] at ht
    cases hpre : traceRun (some traceStart) l1 with
    | none => rw [hpre, traceRun_none] at ht; exact Option.noConfusion ht
    | some t1 =>
        rw [hpre] at ht
        simp only [traceRun, Option.some_bind] at ht
        cases htep : traceStep t1 Event.streamDisconnected with
        | none => rw [htep, traceRun_none] at ht; exact Option.noConfusion ht
        | some t2 =>
            have hopen := traceStep_disc_fileOpen t1 t2 htep
            have hc := (traceRun_counts l1 traceStart t1 hpre).1
            rw [hopen] at hc
            simpa [traceStart] using hc

/-- Witness for `stop_is_asynchronous`: in the drained stop run the events
before stream-disconnected hold three created and three completed. -/
theorem stop_is_asynchronous_witness :
    countCreated
      [Event.streamConnected,
       Event.fileCreated (makeFilePath "/tmp" 0 ContainerFormat.mp4),
       Event.fileCompleted (makeFilePath "/tmp" 0 ContainerFormat.mp4),
       Event.fileCreated (makeFilePath "/tmp" 1 ContainerFormat.mp4),
       Event.fileCompleted (makeFilePath "/tmp" 1 ContainerFormat.mp4),
       Event.fileCreated (makeFilePath "/tmp" 2 ContainerFormat.mp4),
       Event.fileCompleted (makeFilePath "/tmp" 2 ContainerFormat.mp4)] =
    countCompleted
      [Event.streamConnected,
       Event.fileCreated (makeFilePath "/tmp" 0 ContainerFormat.mp4),
       Event.fileCompleted (makeFilePath "/tmp" 0 ContainerFormat.mp4),
       Event.fileCreated (makeFilePath "/tmp" 1 ContainerFormat.mp4),
       Event.fileCompleted (makeFilePath "/tmp" 1 ContainerFormat.mp4),
       Event.fileCreated (makeFilePath "/tmp" 2 ContainerFormat.mp4),
       Event.fileCompleted (makeFilePath "/tmp" 2 ContainerFormat.mp4)] :=
  stop_is_asynchronous.2 ContainerFormat.mp4 "/tmp" (some 2) none
    (preStop ++ SourceInput.stopRecording :: postStop)
    [Event.streamConnected,
     Event.fileCreated (makeFilePath "/tmp" 0 ContainerFormat.mp4),
     Event.fileCompleted (makeFilePath "/tmp" 0 ContainerFormat.mp4),
     Event.fileCreated (makeFilePath "/tmp" 1 ContainerFormat.mp4),
     Event.fileCompleted (makeFilePath "/tmp" 1 ContainerFormat.mp4),
     Event.fileCreated (makeFilePath "/tmp" 2 ContainerFormat.mp4),
     Event.fileCompleted (makeFilePath "/tmp" 2 ContainerFormat.mp4)]
    [] (by decide)
